import Mathlib

/-!
# DbParser: SQL-like queries over a hash-oriented key-value store

A shallow embedding of the four Go programs of the repository

* `db/main.go`                  (namespace `DbParser.Main`)
* `db/complex/complex.go`       (namespace `DbParser.Complex`)
* `db/joins/joins.go`           (namespace `DbParser.Joins`)
* `db/nestedJson/nestedJson.go` (namespace `DbParser.NestedJson`)

## Modelling conventions

* A Go `string` is a list of characters (`Str`).  Offsets and lengths count
  characters, where Go counts bytes, and `strings.ToUpper` is modelled on
  the ASCII letters, where Go maps every letter (U+017F to `S`).  The two
  agree on ASCII text (`isASCII`).  A property of an arbitrary query that
  rests on a fixed offset (`query[7:selectEnd]`) or on the guard failing is
  stated for ASCII queries; in the query templates the text up to the fixed
  offset is ASCII, and the offsets found by `strings.Index` cut the text at
  the same places in both readings.
* Go's `int` is the 64-bit integer: `strconv.Atoi` rejects values outside
  `[-2^63, 2^63 - 1]`.
* The Redis client `rdb` is the only effect.  A handler is embedded as a
  `Prog`: a decision tree whose inner nodes are the store commands it
  issues (`HGET`, `GET`, `EXISTS`) and whose leaves are its outcome.
  `Prog.run` answers the commands from a `Store`; `Prog.reads` counts them.
* A handler ends in one of three ways (`Outcome`): it returns a value with
  a nil error, it returns an error, or the Go runtime panics.
* `make([]string, n)` panics ("makeslice: len out of range") for a negative
  length and for one whose 16-byte string headers exceed the allocation
  limit of the 64-bit runtime, `2^48` bytes (`maxSliceLen`).  Running out
  of memory below that limit is a property of the machine and is not
  modelled.
* A Go `map` is an association list with distinct keys (`GoMap`);
  assignment `m[k] = v` is `GoMap.set`.
* `handleSQLQuery` of `joins.go` and `nestedJson.go` ends with
  `fmt.Sprintf("%v", results)`; the embedding returns `results`, the row
  list that is rendered.  Console logging (`fmt.Printf`) is not modelled.
-/

namespace DbParser

/-- A Go string, as its sequence of characters. -/
abbrev Str := List Char

/-- Whether a string is ASCII text: every character is one byte, so that
character offsets are Go's byte offsets. -/
def isASCII (s : Str) : Bool :=
  s.all fun c => decide (c.toNat < 128)

/-! ## The Go library functions the programs call -/

namespace Go

/-- The single-quote character (code point 39). -/
def quote : Char := Char.ofNat 39

/-- Go `unicode.IsSpace`: the white-space code points. -/
def isSpace (c : Char) : Bool :=
  let n := c.toNat
  n == 9 || n == 10 || n == 11 || n == 12 || n == 13 || n == 32 ||
  n == 0x85 || n == 0xA0 || n == 0x1680 || (0x2000 ≤ n && n ≤ 0x200A) ||
  n == 0x2028 || n == 0x2029 || n == 0x202F || n == 0x205F || n == 0x3000

/-- Go `strings.TrimSpace`: strip leading and trailing white space. -/
def TrimSpace (s : Str) : Str :=
  (s.dropWhile isSpace).rdropWhile isSpace

/-- Go `strings.ToUpper`, on the ASCII letters: the result is that of Go on
ASCII text (`isASCII`), and on any text it begins with an ASCII word only if
the result of Go does. -/
def ToUpper (s : Str) : Str :=
  s.map Char.toUpper

/-- Go `strings.HasPrefix`. -/
def HasPrefix (s pre : Str) : Bool :=
  pre.isPrefixOf s

/-- The offset of the first occurrence of `sub` in the string, if any. -/
def indexOf? (sub : Str) : Str → Option Nat
  | [] => if sub.isPrefixOf [] then some 0 else none
  | c :: cs =>
    if sub.isPrefixOf (c :: cs) then some 0
    else (indexOf? sub cs).map (· + 1)

/-- Go `strings.Index`: the offset of the first occurrence, or `-1`. -/
def Index (s sub : Str) : Int :=
  match indexOf? sub s with
  | some i => (i : Int)
  | none => -1

/-- Go `strings.Contains`. -/
def Contains (s sub : Str) : Bool :=
  decide (Index s sub ≥ 0)

/-- Go slice expression `s[lo:hi]` on a string; `none` is the run-time panic
"slice bounds out of range", raised unless `0 ≤ lo ≤ hi ≤ len(s)`. -/
def slice (s : Str) (lo hi : Int) : Option Str :=
  if 0 ≤ lo ∧ lo ≤ hi ∧ hi ≤ (s.length : Int) then
    some ((s.drop lo.toNat).take (hi.toNat - lo.toNat))
  else none

/-- Go slice expression `s[lo:]`. -/
def sliceFrom (s : Str) (lo : Int) : Option Str :=
  slice s lo s.length

/-- The loop of Go `strings.genSplit`: cut at the first occurrence of `sep`,
continue after it. -/
def splitLoop (sep : Str) : Nat → Str → List Str
  | 0, s => [s]
  | fuel + 1, s =>
    match indexOf? sep s with
    | none => [s]
    | some m => s.take m :: splitLoop sep fuel (s.drop (m + sep.length))

/-- Go `strings.Split`.  With an empty separator the string is exploded into
its characters; otherwise it is cut at each (non-overlapping) occurrence of
the separator, left to right.  A string of length `n` holds at most `n`
occurrences, so `n` rounds of the loop are enough. -/
def Split (s sep : Str) : List Str :=
  if sep = [] then s.map (fun c => [c])
  else splitLoop sep s.length s

/-- Go `strings.TrimPrefix`. -/
def TrimPrefix (s pre : Str) : Str :=
  if HasPrefix s pre then s.drop pre.length else s

/-- Go `strings.Trim`: strip the leading and trailing characters that occur
in `cutset`. -/
def Trim (s cutset : Str) : Str :=
  (s.dropWhile (fun c => cutset.contains c)).rdropWhile (fun c => cutset.contains c)

/-- The value of a decimal digit character. -/
def digitVal? (c : Char) : Option Nat :=
  if 48 ≤ c.toNat ∧ c.toNat ≤ 57 then some (c.toNat - 48) else none

/-- The number denoted by a string of decimal digits read after the
accumulated value `acc`; `none` if a character is not a digit. -/
def parseDigits (acc : Nat) : Str → Option Nat
  | [] => some acc
  | c :: cs =>
    match digitVal? c with
    | none => none
    | some d => parseDigits (acc * 10 + d) cs

/-- Go `strconv.Atoi` for a 64-bit `int`: an optional sign, then one or more
decimal digits, the value within `[-2^63, 2^63 - 1]`; `none` is the error
result (syntax or range). -/
def Atoi (s : Str) : Option Int :=
  let neg : Bool := s.head? == some '-'
  let body : Str := if s.head? == some '-' || s.head? == some '+' then s.tail else s
  if body = [] then none
  else
    match parseDigits 0 body with
    | none => none
    | some n =>
      let v : Int := if neg then -(n : Int) else (n : Int)
      if -(2 : Int) ^ 63 ≤ v ∧ v < (2 : Int) ^ 63 then some v else none

/-- The character of a decimal digit. -/
def digitChar (d : Nat) : Char :=
  Char.ofNat (48 + d)

/-- The decimal digits of a natural number, most significant first, in front
of `acc`. -/
def natDigits : Nat → Nat → Str → Str
  | 0, _, acc => acc
  | fuel + 1, n, acc =>
    if n < 10 then digitChar n :: acc
    else natDigits fuel (n / 10) (digitChar (n % 10) :: acc)

/-- Go `strconv.Itoa`, the rendering of an `int` by the verb `%d`. -/
def Itoa (i : Int) : Str :=
  if i < 0 then '-' :: natDigits (i.natAbs + 1) i.natAbs []
  else natDigits (i.natAbs + 1) i.natAbs []

end Go

/-! ## Go maps -/

/-- A Go `map[string]β`: an association list with distinct keys. -/
abbrev GoMap (β : Type) := List (Str × β)

namespace GoMap

/-- Go `m[k] = v`: overwrite the entry of `k`, or add one. -/
def set {β : Type} : GoMap β → Str → β → GoMap β
  | [], k, v => [(k, v)]
  | (k', v') :: rest, k, v =>
    if k' = k then (k, v) :: rest else (k', v') :: set rest k v

/-- The comma-ok lookup `v, ok := m[k]`. -/
def get? {β : Type} (m : GoMap β) (k : Str) : Option β :=
  List.lookup k m

/-- Go `m[k]` on a `map[string]string`: the empty string when `k` has no
entry (also on the nil map). -/
def getD (m : GoMap Str) (k : Str) : Str :=
  (List.lookup k m).getD []

end GoMap

/-! ## The store and the programs that query it -/

/-- The reply of the client to `HGET key field` or `GET key`: a value, the
`redis.Nil` error (no such key or field), or any other error. -/
inductive Reply where
  | val (v : Str)
  | nil
  | err (e : Str)
  deriving DecidableEq, Repr

/-- The reply of the client to `EXISTS key`: the number of keys that exist,
or an error. -/
inductive ExistsReply where
  | count (n : Int)
  | err (e : Str)
  deriving DecidableEq, Repr

/-- The key-value store, as the answers it gives to the three commands. -/
structure Store where
  /-- Answer to `HGET key field`. -/
  hget : Str → Str → Reply
  /-- Answer to `GET key`. -/
  get : Str → Reply
  /-- Answer to `EXISTS key`. -/
  existsKey : Str → ExistsReply

/-- The Go run-time panics the handlers can raise. -/
inductive Panic where
  | sliceBounds
  | indexOutOfRange
  | makeSliceLen
  deriving DecidableEq, Repr

/-- How a handler ends: a value with a nil error, an error, or a panic. -/
inductive Outcome (α : Type) where
  | ok (a : α)
  | error (msg : Str)
  | panic (p : Panic)
  deriving DecidableEq, Repr

namespace Outcome

/-- Sequencing of outcomes: an error or a panic ends the computation. -/
def bind {α β : Type} : Outcome α → (α → Outcome β) → Outcome β
  | .ok a, f => f a
  | .error e, _ => .error e
  | .panic p, _ => .panic p

/-- The values of a list of outcomes, or the first error or panic in it. -/
def sequence {α : Type} : List (Outcome α) → Outcome (List α)
  | [] => .ok []
  | r :: rest => r.bind fun a => (sequence rest).bind fun as => .ok (a :: as)

end Outcome

/-- A handler: the store commands it issues, each continued on the reply,
down to its outcome. -/
inductive Prog (α : Type) where
  | done (r : Outcome α)
  | hget (key field : Str) (k : Reply → Prog α)
  | get (key : Str) (k : Reply → Prog α)
  | existsKey (key : Str) (k : ExistsReply → Prog α)

namespace Prog

/-- Sequencing: an error or a panic ends the handler. -/
def bind {α β : Type} : Prog α → (α → Prog β) → Prog β
  | done (.ok a), f => f a
  | done (.error e), _ => done (.error e)
  | done (.panic p), _ => done (.panic p)
  | hget key field k, f => hget key field (fun r => bind (k r) f)
  | get key k, f => get key (fun r => bind (k r) f)
  | existsKey key k, f => existsKey key (fun r => bind (k r) f)

instance : Monad Prog where
  pure a := done (.ok a)
  bind := bind

/-- Return an error. -/
def fail {α : Type} (msg : Str) : Prog α := done (.error msg)

/-- Raise a run-time panic. -/
def panic {α : Type} (p : Panic) : Prog α := done (.panic p)

/-- A pure computation that may panic or fail, as a program. -/
def lift {α : Type} (r : Outcome α) : Prog α := done r

/-- Run a handler against a store. -/
def run {α : Type} (s : Store) : Prog α → Outcome α
  | done r => r
  | hget key field k => run s (k (s.hget key field))
  | get key k => run s (k (s.get key))
  | existsKey key k => run s (k (s.existsKey key))

/-- The number of store commands a handler issues against a store. -/
def reads {α : Type} (s : Store) : Prog α → Nat
  | done _ => 0
  | hget key field k => reads s (k (s.hget key field)) + 1
  | get key k => reads s (k (s.get key)) + 1
  | existsKey key k => reads s (k (s.existsKey key)) + 1

end Prog

/-- A result row (`map[string]string`): requested field name to value. -/
abbrev Row := GoMap Str

/-- An operand handed to `fmt.Sprintf`. -/
inductive FmtArg where
  | int (i : Int)
  | str (s : Str)
  deriving DecidableEq, Repr

/-- Go `fmt` rendering of one operand under the verb `%d`: an integer is
written in decimal; a string operand has the wrong type for the verb and is
rendered as `%!d(string=<s>)`. -/
def fmtD : FmtArg → Str
  | .int i => Go.Itoa i
  | .str s => "%!d(string=".toList ++ s ++ ")".toList

/-- The key `fmt.Sprintf("user:%d", i)`. -/
def userKey (i : Int) : Str :=
  "user:".toList ++ fmtD (.int i)

/-- The keys filled in by `for i := 1; i <= numUsers; i++`, in order. -/
def userKeys (numUsers : Int) : List Str :=
  (List.range numUsers.toNat).map (fun (i : Nat) => userKey ((i : Int) + 1))

/-- The largest length `make([]string, n)` accepts on a 64-bit platform:
`runtime.makeslice` panics when `n` times the 16 bytes of a string header
exceeds `maxAlloc = 2^48`.  Up to this length the allocation is taken to
succeed: running out of memory is a fatal error of the runtime that depends on
the machine and is outside the model. -/
def maxSliceLen : Nat := 2 ^ 44

/-- Go `make([]string, numUsers)` followed by the loop that fills in the
keys `user:1 .. user:numUsers`; a negative length and a length above
`maxSliceLen` panic. -/
def makeKeys (numUsers : Int) : Outcome (List Str) :=
  if numUsers < 0 ∨ (maxSliceLen : Int) < numUsers then .panic .makeSliceLen
  else .ok (userKeys numUsers)

/-! ## `db/main.go` -/

namespace Main

open Go in
/-- The function `handleSQLQuery` of `main.go`: the value stored under the key
quoted after `key='`. -/
def handleSQLQuery (query : Str) : Prog Str :=
  let query := TrimSpace query
  if HasPrefix (ToUpper query) "SELECT".toList then
    let start : Int := Index query "key='".toList + ("key='".toList.length : Int)
    match sliceFrom query start with
    | none => Prog.panic .sliceBounds
    | some rest =>
      let stop : Int := Index rest [quote] + start
      if start = -1 ∨ stop = -1 ∨ stop ≤ start then
        Prog.fail "invalid SQL query".toList
      else
        match slice query start stop with
        | none => Prog.panic .sliceBounds
        | some key =>
          Prog.get key fun r =>
            match r with
            | .val v => pure v
            | .nil => Prog.fail "key not found".toList
            | .err e => Prog.fail e
  else
    Prog.fail "unsupported query".toList

end Main

/-! ## `db/complex/complex.go` -/

namespace Complex

open Go in
/-- The function `parseWhereClause` of `complex.go`: equality conditions
only. -/
def parseWhereClause (whereClause : Str) : GoMap Str :=
  let whereClause := TrimSpace (TrimPrefix whereClause "WHERE".toList)
  let conditionsList := Split whereClause "AND".toList
  conditionsList.foldl
    (fun conditions condition =>
      let condition := TrimSpace condition
      match Split condition "=".toList with
      | [p0, p1] =>
        let field := TrimSpace (Trim p0 [quote])
        let value := TrimSpace (Trim p1 [quote])
        conditions.set field value
      | _ => conditions)
    []

open Go in
/-- The condition map of `handleSQLQuery`: `parseWhereClause(query[whereStart:])`
when the query contains `WHERE`, the nil map otherwise. -/
def whereConditions (query : Str) : Outcome (GoMap Str) :=
  let whereStart := Index query "WHERE".toList
  if whereStart ≠ -1 then
    match sliceFrom query whereStart with
    | none => .panic .sliceBounds
    | some w => .ok (parseWhereClause w)
  else .ok []

/-- The loop `for field, expectedVal := range conditions` of
`handleSQLQuery` in `complex.go`; the entries are visited in list order.  Go
leaves the order of `range` over a map unspecified: when several entries
fail, the error returned is that of the entry visited first. -/
def checkLoop (key : Str) : GoMap Str → Prog Unit
  | [] => pure ()
  | (field, expectedVal) :: rest =>
    Prog.hget key field fun r =>
      match r with
      | .nil =>
        Prog.fail ("field '".toList ++ field ++ "' not found for key '".toList
          ++ key ++ "'".toList)
      | .err e => Prog.fail e
      | .val actualVal =>
        if actualVal ≠ expectedVal then
          Prog.fail ("condition '".toList ++ field ++ "=".toList ++ expectedVal
            ++ "' not met".toList)
        else checkLoop key rest

/-- The loop `for _, field := range fields` of `handleSQLQuery` in
`complex.go`: a missing field is an error. -/
def projectLoop (key : Str) : List Str → Row → Prog Row
  | [], result => pure result
  | field :: rest, result =>
    Prog.hget key field fun r =>
      match r with
      | .nil =>
        Prog.fail ("field '".toList ++ field ++ "' not found for key '".toList
          ++ key ++ "'".toList)
      | .err e => Prog.fail e
      | .val v => projectLoop key rest (result.set field v)

open Go in
/-- The function `handleSQLQuery` of `complex.go`, on the fixed key
`user:1001`. -/
def handleSQLQuery (query : Str) : Prog Row :=
  let query := TrimSpace query
  if HasPrefix (ToUpper query) "SELECT".toList then
    let key := "user:1001".toList
    Prog.existsKey key fun r =>
      match r with
      | .err e => Prog.fail ("error checking if key exists: ".toList ++ e)
      | .count n =>
        if n = 0 then
          Prog.fail ("key '".toList ++ key ++ "' not found".toList)
        else
          let selectStart : Int := ("SELECT ".toList.length : Int)
          match sliceFrom query selectStart with
          | none => Prog.panic .sliceBounds
          | some rest =>
            let selectEnd : Int := Index rest " FROM ".toList + selectStart
            if selectEnd = -1 then Prog.fail "invalid SQL query".toList
            else
              match slice query selectStart selectEnd with
              | none => Prog.panic .sliceBounds
              | some sub =>
                let fields := (Split (TrimSpace sub) ",".toList).map TrimSpace
                do
                  let conditions ← Prog.lift (whereConditions query)
                  if conditions.length > 0 then checkLoop key conditions
                  projectLoop key fields []
  else
    Prog.fail "unsupported query".toList

end Complex

/-! ## `db/joins/joins.go` -/

/-- A value of the condition map `map[string]interface{}`: a string to be
equal to, or an `int` to be greater than. -/
inductive Cond where
  | str (v : Str)
  | int (t : Int)
  deriving DecidableEq, Repr

/-- The type switch `switch expectedVal := expectedVal.(type)` of
`checkConditions` (`joins.go`, `nestedJson.go`): `false` where the switch
returns false, `true` where it falls through to the next entry. -/
def meets (actualVal : Str) : Cond → Bool
  | .str v => if actualVal ≠ v then false else true
  | .int t =>
    match Go.Atoi actualVal with
    | none => false
    | some actualInt => if actualInt ≤ t then false else true

namespace Joins

open Go in
/-- The function `extractFields` of `joins.go`.  The offset 7 counts characters:
it is the byte offset of Go when the characters before it are ASCII. -/
def extractFields (query : Str) : Outcome (List Str) :=
  let selectStart : Int := ("SELECT ".toList.length : Int)
  let selectEnd : Int := Index query " FROM ".toList
  match slice query selectStart selectEnd with
  | none => .panic .sliceBounds
  | some sub =>
    let fields := TrimSpace sub
    if fields = "*".toList then
      .ok ["name".toList, "email".toList, "age".toList, "country".toList]
    else .ok (Split fields ",".toList)

open Go in
/-- The function `parseWhereClause` of `joins.go`. -/
def parseWhereClause (whereClause : Str) : GoMap Cond :=
  let whereClause := TrimSpace (TrimPrefix whereClause "WHERE".toList)
  let conditionsList := Split whereClause "AND".toList
  conditionsList.foldl
    (fun conditions condition =>
      let condition := TrimSpace condition
      if Contains condition ">".toList then
        match Split condition ">".toList with
        | [p0, p1] =>
          let field := TrimSpace p0
          match Atoi (TrimSpace p1) with
          | some value => conditions.set field (.int value)
          | none => conditions
        | _ => conditions
      else
        match Split condition "=".toList with
        | [p0, p1] =>
          let field := TrimSpace (Trim p0 [quote])
          let value := TrimSpace (Trim p1 [quote])
          conditions.set field (.str value)
        | _ => conditions)
    []

open Go in
/-- The condition map of `handleSQLQuery`: `parseWhereClause(query[whereStart:])`
when the query contains `WHERE`, the nil map otherwise. -/
def whereConditions (query : Str) : Outcome (GoMap Cond) :=
  let whereStart := Index query "WHERE".toList
  if whereStart ≠ -1 then
    match sliceFrom query whereStart with
    | none => .panic .sliceBounds
    | some w => .ok (parseWhereClause w)
  else .ok []

/-- The function `checkConditions` of `joins.go`; the entries of the map are
visited in list order. -/
def checkConditions (key : Str) : GoMap Cond → Prog Bool
  | [] => pure true
  | (field, expectedVal) :: rest =>
    Prog.hget key field fun r =>
      match r with
      | .val actualVal =>
        if meets actualVal expectedVal then checkConditions key rest
        else pure false
      | _ => pure false

/-- The loop `for _, field := range fields` of `joins.go`: a field the store
does not have is skipped, another store error ends the query. -/
def projectLoop (key : Str) : List Str → Row → Prog Row
  | [], result => pure result
  | field :: rest, result =>
    Prog.hget key field fun r =>
      match r with
      | .err e => Prog.fail e
      | .nil => projectLoop key rest result
      | .val v => projectLoop key rest (result.set field v)

/-- The loop `for _, key := range keys` of `handleSQLQuery` in `joins.go`. -/
def selectLoop (query : Str) (conditions : GoMap Cond) :
    List Str → List Row → Prog (List Row)
  | [], results => pure results
  | key :: keys, results => do
    let pass ←
      if conditions.length > 0 then checkConditions key conditions else pure true
    if !pass then selectLoop query conditions keys results
    else do
      let fields ← Prog.lift (extractFields query)
      let result ← projectLoop key fields []
      selectLoop query conditions keys (results ++ [result])

/-- The profile key of `handleJoinQuery`:
`fmt.Sprintf("user_profile:%d", strings.TrimPrefix(key, "user:"))`, the verb
`%d` applied to a string operand. -/
def profileKey (key : Str) : Str :=
  "user_profile:".toList ++ fmtD (.str (Go.TrimPrefix key "user:".toList))

/-- The two loops `for k, v := range ...` that copy the main and the joined
row into the combined row. -/
def combine (mainResult joinResult : Row) : Row :=
  joinResult.foldl (fun acc kv => acc.set kv.1 kv.2)
    (mainResult.foldl (fun acc kv => acc.set kv.1 kv.2) [])

/-- The loop `for _, key := range keys` of `handleJoinQuery`. -/
def joinLoop (mainFields joinFields : List Str) :
    List Str → List Row → Prog (List Row)
  | [], results => pure results
  | key :: keys, results => do
    let mainResult ← projectLoop key mainFields []
    let joinResult ← projectLoop (profileKey key) joinFields []
    joinLoop mainFields joinFields keys (results ++ [combine mainResult joinResult])

/-- The function `handleJoinQuery` of `joins.go`. -/
def handleJoinQuery (parts : List Str) (numUsers : Int) : Prog (List Row) :=
  match parts with
  | mainQuery :: joinQuery :: _ => do
    let mainFields ← Prog.lift (extractFields mainQuery)
    let joinFields ← Prog.lift (extractFields joinQuery)
    let keys ← Prog.lift (makeKeys numUsers)
    joinLoop mainFields joinFields keys []
  | _ => Prog.panic .indexOutOfRange

open Go in
/-- The function `handleSQLQuery` of `joins.go`. -/
def handleSQLQuery (query : Str) (numUsers : Int) : Prog (List Row) :=
  let query := TrimSpace query
  if HasPrefix (ToUpper query) "SELECT".toList then
    let parts := Split query " JOIN ".toList
    if parts.length > 1 then handleJoinQuery parts numUsers
    else
      do
        let conditions ← Prog.lift (whereConditions query)
        let keys ← Prog.lift (makeKeys numUsers)
        selectLoop query conditions keys []
  else
    Prog.fail "unsupported query".toList

end Joins

/-! ## `db/nestedJson/nestedJson.go` -/

namespace NestedJson

/-- The effect of `json.Unmarshal([]byte(text), &addressData)` on the nil
`map[string]string`: the map left in `addressData`, nil (empty) when nothing
was decoded.  The decoder is a parameter of the handlers. -/
abbrev Unmarshal := Str → GoMap Str

open Go in
/-- The function `extractFields` of `nestedJson.go`.  The offset 7 counts
characters: it is the byte offset of Go when the characters before it are
ASCII. -/
def extractFields (query : Str) : Outcome (List Str) :=
  let selectStart : Int := ("SELECT ".toList.length : Int)
  let selectEnd : Int := Index query " FROM ".toList
  match slice query selectStart selectEnd with
  | none => .panic .sliceBounds
  | some sub => .ok (Split (TrimSpace sub) ",".toList)

open Go in
/-- The function `parseWhereClause` of `nestedJson.go`. -/
def parseWhereClause (whereClause : Str) : GoMap Cond :=
  let whereClause := TrimSpace (TrimPrefix whereClause "WHERE".toList)
  let conditionsList := Split whereClause "AND".toList
  conditionsList.foldl
    (fun conditions condition =>
      let condition := TrimSpace condition
      if Contains condition ">".toList then
        match Split condition ">".toList with
        | [p0, p1] =>
          let field := TrimSpace p0
          match Atoi (TrimSpace p1) with
          | some value => conditions.set field (.int value)
          | none => conditions
        | _ => conditions
      else
        match Split condition "=".toList with
        | [p0, p1] =>
          let field := TrimSpace (Trim p0 [quote])
          let value := TrimSpace (Trim p1 [quote])
          conditions.set field (.str value)
        | _ => conditions)
    []

open Go in
/-- The condition map of `handleSQLQuery`: `parseWhereClause(query[whereStart:])`
when the query contains `WHERE`, the nil map otherwise. -/
def whereConditions (query : Str) : Outcome (GoMap Cond) :=
  let whereStart := Index query "WHERE".toList
  if whereStart ≠ -1 then
    match sliceFrom query whereStart with
    | none => .panic .sliceBounds
    | some w => .ok (parseWhereClause w)
  else .ok []

open Go in
/-- The function `checkConditions` of `nestedJson.go`; the entries of the map
are visited in list order. -/
def checkConditions (json : Unmarshal) (key : Str) : GoMap Cond → Prog Bool
  | [] => pure true
  | (field, expectedVal) :: rest =>
    Prog.hget key field fun r =>
      match r with
      | .val actualVal =>
        if Contains field ".".toList then
          match Split field ".".toList with
          | _ :: nestedField :: _ =>
            Prog.hget key "address".toList fun a =>
              match a with
              | .val addressJSON =>
                if meets ((json addressJSON).getD nestedField) expectedVal then
                  checkConditions json key rest
                else pure false
              | _ =>
                if meets actualVal expectedVal then checkConditions json key rest
                else pure false
          | _ => Prog.panic .indexOutOfRange
        else
          if meets actualVal expectedVal then checkConditions json key rest
          else pure false
      | _ => pure false

open Go in
/-- The loop `for _, field := range fields` of `handleSQLQuery` in
`nestedJson.go`, with the fallback for a dotted field the store does not
have. -/
def projectLoop (json : Unmarshal) (key : Str) : List Str → Row → Prog Row
  | [], result => pure result
  | field :: rest, result =>
    Prog.hget key field fun r =>
      match r with
      | .err e => Prog.fail e
      | .val v => projectLoop json key rest (result.set field v)
      | .nil =>
        if Contains field ".".toList then
          match Split field ".".toList with
          | _ :: nestedField :: _ =>
            Prog.hget key "address".toList fun a =>
              match a with
              | .val addressJSON =>
                projectLoop json key rest
                  (result.set field ((json addressJSON).getD nestedField))
              | _ => projectLoop json key rest (result.set field [])
          | _ => Prog.panic .indexOutOfRange
        else projectLoop json key rest result

/-- The loop `for _, key := range keys` of `handleSQLQuery` in
`nestedJson.go`. -/
def selectLoop (json : Unmarshal) (query : Str) (conditions : GoMap Cond) :
    List Str → List Row → Prog (List Row)
  | [], results => pure results
  | key :: keys, results => do
    let pass ←
      if conditions.length > 0 then checkConditions json key conditions
      else pure true
    if !pass then selectLoop json query conditions keys results
    else do
      let fields ← Prog.lift (extractFields query)
      let result ← projectLoop json key fields []
      selectLoop json query conditions keys (results ++ [result])

open Go in
/-- The function `handleSQLQuery` of `nestedJson.go`. -/
def handleSQLQuery (json : Unmarshal) (query : Str) (numUsers : Int) :
    Prog (List Row) :=
  let query := TrimSpace query
  if HasPrefix (ToUpper query) "SELECT".toList then
    do
      let conditions ← Prog.lift (whereConditions query)
      let keys ← Prog.lift (makeKeys numUsers)
      selectLoop json query conditions keys []
  else
    Prog.fail "unsupported query".toList

end NestedJson

/-! ## Reference definitions used to state the properties -/

/-- Whether the record under `key` meets one entry of the condition map in
`joins.go`: the field is present and its value passes the type switch. -/
def Joins.entryHolds (s : Store) (key : Str) (e : Str × Cond) : Bool :=
  match s.hget key e.1 with
  | .val actualVal => meets actualVal e.2
  | _ => false

/-- Whether the record under `key` meets one entry of the condition map in
`nestedJson.go`: for a dotted field the value compared is the one decoded
from the `address` field, when that field can be read. -/
def NestedJson.entryHolds (json : NestedJson.Unmarshal) (s : Store) (key : Str)
    (e : Str × Cond) : Bool :=
  match s.hget key e.1 with
  | .val actualVal =>
    if Go.Contains e.1 ".".toList then
      match s.hget key "address".toList with
      | .val addressJSON =>
        meets ((json addressJSON).getD ((Go.Split e.1 ".".toList).getD 1 [])) e.2
      | _ => meets actualVal e.2
    else meets actualVal e.2
  | _ => false

/-- The row that maps each field of the list for which `value` gives a value
to that value, and holds nothing else. -/
def rowOfFields (value : Str → Option Str) (fields : List Str) : Row :=
  fields.foldl
    (fun row field =>
      match value field with
      | some v => row.set field v
      | none => row)
    []

/-- The keys among `user:1 .. user:N`, by increasing number, that pass the
condition check `check`; all of them when the condition map is empty. -/
def passingKeys (N : Nat) (conds : GoMap Cond) (check : Str → Outcome Bool) : List Str :=
  ((List.range N).map fun (i : Nat) => userKey ((i : Int) + 1)).filter fun key =>
    decide (conds.length = 0) || (check key == .ok true)

/-! ### A JSON decoder for the concrete examples

The handlers of `nestedJson.go` take the decoder as a parameter, and the
general properties hold for every decoder.  The concrete examples use
`jsonStringMap`, which decodes the texts the program itself stores
(`json.Marshal` of a `map[string]string`): an object whose members are
strings, with optional white space and the two-character escapes.  A text
outside this fragment (a member that is not a string, a `\u` escape, invalid
JSON) is not decoded: the result is the nil map, which `json.Unmarshal`
leaves only when nothing was decoded before its error.  The examples stay
inside the fragment. -/

namespace Json

/-- The double-quote character. -/
def dquote : Char := Char.ofNat 34

/-- The backslash character. -/
def backslash : Char := Char.ofNat 92

/-- JSON white space. -/
def isWs (c : Char) : Bool :=
  c.toNat == 32 || c.toNat == 9 || c.toNat == 10 || c.toNat == 13

/-- The character denoted by a two-character escape. -/
def unescape (c : Char) : Option Char :=
  if c = dquote then some dquote
  else if c = backslash then some backslash
  else if c = '/' then some '/'
  else if c = 'b' then some (Char.ofNat 8)
  else if c = 'f' then some (Char.ofNat 12)
  else if c = 'n' then some (Char.ofNat 10)
  else if c = 'r' then some (Char.ofNat 13)
  else if c = 't' then some (Char.ofNat 9)
  else none

/-- The rest of a string literal after its opening quote: its content and
the text after the closing quote. -/
def stringBody : Str → Str → Option (Str × Str)
  | [], _ => none
  | [c], acc => if c = dquote then some (acc.reverse, []) else none
  | c :: d :: rest, acc =>
    if c = dquote then some (acc.reverse, d :: rest)
    else if c = backslash then
      match unescape d with
      | some ch => stringBody rest (ch :: acc)
      | none => none
    else if c.toNat < 32 then none
    else stringBody (d :: rest) (c :: acc)

/-- A string literal at the head of the text, after white space. -/
def stringLit (text : Str) : Option (Str × Str) :=
  match text.dropWhile isWs with
  | c :: rest => if c = dquote then stringBody rest [] else none
  | [] => none

/-- A given punctuation character at the head of the text, after white
space. -/
def punct (p : Char) (text : Str) : Option Str :=
  match text.dropWhile isWs with
  | c :: rest => if c = p then some rest else none
  | [] => none

/-- The members of an object after its opening brace, added to `acc`. -/
def members : Nat → Str → GoMap Str → Option (GoMap Str × Str)
  | 0, _, _ => none
  | fuel + 1, text, acc =>
    match stringLit text with
    | none => none
    | some (k, afterKey) =>
      match punct ':' afterKey with
      | none => none
      | some afterColon =>
        match stringLit afterColon with
        | none => none
        | some (v, afterVal) =>
          match punct ',' afterVal with
          | some more => members fuel more (acc.set k v)
          | none =>
            match punct (Char.ofNat 125) afterVal with
            | some rest => some (acc.set k v, rest)
            | none => none

/-- The map decoded from a JSON object with string members; the nil map when
the text is not one. -/
def jsonStringMap (text : Str) : GoMap Str :=
  match punct (Char.ofNat 123) text with
  | none => []
  | some body =>
    match punct (Char.ofNat 125) body with
    | some _ => []
    | none =>
      match members text.length body [] with
      | some (m, rest) => if rest.dropWhile isWs = [] then m else []
      | none => []

end Json

/-- An in-memory store: `hashes` holds the records (key to field-value map),
`strings` the plain string values.  A command on a key of the other kind is
answered with the `WRONGTYPE` error, a command on a missing key or field with
`redis.Nil`. -/
def Store.ofData (hashes : List (Str × List (Str × Str))) (strings : List (Str × Str)) :
    Store where
  hget := fun key field =>
    match List.lookup key hashes with
    | some fields =>
      match List.lookup field fields with
      | some v => .val v
      | none => .nil
    | none =>
      match List.lookup key strings with
      | some _ => .err "WRONGTYPE Operation against a key holding the wrong kind of value".toList
      | none => .nil
  get := fun key =>
    match List.lookup key strings with
    | some v => .val v
    | none =>
      match List.lookup key hashes with
      | some _ => .err "WRONGTYPE Operation against a key holding the wrong kind of value".toList
      | none => .nil
  existsKey := fun key =>
    match List.lookup key hashes, List.lookup key strings with
    | none, none => .count 0
    | _, _ => .count 1

/-- The store of the concrete scenario: `user:1` holds
`name: Ann, age: 30, country: USA`. -/
def annStore : Store :=
  Store.ofData
    [("user:1".toList,
      [("name".toList, "Ann".toList), ("age".toList, "30".toList),
       ("country".toList, "USA".toList)])]
    []

/-- The store written by `main` of `complex.go`: the record `user:1001`. -/
def johnStore : Store :=
  Store.ofData
    [("user:1001".toList,
      [("name".toList, "John Doe".toList), ("email".toList, "john.doe@example.com".toList),
       ("age".toList, "30".toList), ("country".toList, "USA".toList)])]
    []

/-- A store with three users and one profile: `user:1` (with a JSON-encoded
`address`), `user:2` (no `address`), `user:3` (an `address` that is not
JSON) and `user_profile:1`. -/
def demoStore : Store :=
  Store.ofData
    [("user:1".toList,
      [("name".toList, "Ann".toList), ("email".toList, "ann@example.com".toList),
       ("age".toList, "30".toList), ("country".toList, "USA".toList),
       ("address".toList, "\x7b\"city\":\"Paris\"\x7d".toList)]),
     ("user:2".toList,
      [("name".toList, "Bob".toList), ("age".toList, "20".toList),
       ("country".toList, "India".toList)]),
     ("user:3".toList,
      [("name".toList, "Cy".toList), ("address".toList, "12 Main St".toList)]),
     ("user_profile:1".toList,
      [("bio".toList, "Hello".toList), ("name".toList, "Annie".toList)])]
    []

open Go in
/-- An operand of a WHERE condition that the parser reads back unchanged: it
holds no `=` and no `>`, does not begin or end with a quote or with white
space, and does not hold `AND`. -/
def plainOperand (w : Str) : Bool :=
  !w.contains '=' && !w.contains '>' && Trim w [quote] == w && TrimSpace w == w &&
    !Contains w "AND".toList

/-- The row `handleSQLQuery` of `joins.go` builds for a key that passes:
`fields := extractFields(query)`, then the projection loop. -/
def Joins.rowOf (s : Store) (query key : Str) : Outcome Row :=
  (Joins.extractFields query).bind fun fields => (Joins.projectLoop key fields []).run s

/-- The query `SELECT f FROM t WHERE f='x'`. -/
def equalityQuery (f x : Str) : Str :=
  "SELECT ".toList ++ f ++ " FROM t WHERE ".toList ++ f ++ "='".toList ++ x ++ "'".toList

/-- The query `SELECT f FROM t WHERE f > n`, with `n` written in decimal. -/
def greaterQuery (f : Str) (n : Int) : Str :=
  "SELECT ".toList ++ f ++ " FROM t WHERE ".toList ++ f ++ " > ".toList ++ Go.Itoa n

/-- Whether the value stored for field `f` under `key` parses as an integer
strictly greater than `n`. -/
def storedGreater (s : Store) (key f : Str) (n : Int) : Bool :=
  match s.hget key f with
  | .val a =>
    match Go.Atoi a with
    | some v => decide (n < v)
    | none => false
  | _ => false

/-! ### The iteration order of `range` over a map

Go leaves the order in which `for field, expectedVal := range conditions`
visits the entries of a map unspecified.  In the definitions above the
entries are visited in list order.  The variants below take the order as a
parameter: `visit key m` lists the entries of `m` in the order in which the
call `checkConditions(ctx, key, m)` visits them. -/

/-- The key loop of `handleSQLQuery` in `joins.go`, `checkConditions` visiting
the condition map in the order given by `visit`. -/
def Joins.selectLoopVisiting (visit : Str → GoMap Cond → GoMap Cond) (query : Str)
    (conditions : GoMap Cond) : List Str → List Row → Prog (List Row)
  | [], results => pure results
  | key :: keys, results => do
    let pass ←
      if conditions.length > 0 then Joins.checkConditions key (visit key conditions)
      else pure true
    if !pass then Joins.selectLoopVisiting visit query conditions keys results
    else do
      let fields ← Prog.lift (Joins.extractFields query)
      let result ← Joins.projectLoop key fields []
      Joins.selectLoopVisiting visit query conditions keys (results ++ [result])

open Go in
/-- The function `handleSQLQuery` of `joins.go`, `checkConditions` visiting the
condition map in the order given by `visit`. -/
def Joins.handleSQLQueryVisiting (visit : Str → GoMap Cond → GoMap Cond) (query : Str)
    (numUsers : Int) : Prog (List Row) :=
  let query := TrimSpace query
  if HasPrefix (ToUpper query) "SELECT".toList then
    let parts := Split query " JOIN ".toList
    if parts.length > 1 then Joins.handleJoinQuery parts numUsers
    else
      do
        let conditions ← Prog.lift (Joins.whereConditions query)
        let keys ← Prog.lift (makeKeys numUsers)
        Joins.selectLoopVisiting visit query conditions keys []
  else
    Prog.fail "unsupported query".toList

/-- The key loop of `handleSQLQuery` in `nestedJson.go`, `checkConditions`
visiting the condition map in the order given by `visit`. -/
def NestedJson.selectLoopVisiting (json : NestedJson.Unmarshal)
    (visit : Str → GoMap Cond → GoMap Cond) (query : Str) (conditions : GoMap Cond) :
    List Str → List Row → Prog (List Row)
  | [], results => pure results
  | key :: keys, results => do
    let pass ←
      if conditions.length > 0 then
        NestedJson.checkConditions json key (visit key conditions)
      else pure true
    if !pass then NestedJson.selectLoopVisiting json visit query conditions keys results
    else do
      let fields ← Prog.lift (NestedJson.extractFields query)
      let result ← NestedJson.projectLoop json key fields []
      NestedJson.selectLoopVisiting json visit query conditions keys (results ++ [result])

open Go in
/-- The function `handleSQLQuery` of `nestedJson.go`, `checkConditions` visiting
the condition map in the order given by `visit`. -/
def NestedJson.handleSQLQueryVisiting (json : NestedJson.Unmarshal)
    (visit : Str → GoMap Cond → GoMap Cond) (query : Str) (numUsers : Int) :
    Prog (List Row) :=
  let query := TrimSpace query
  if HasPrefix (ToUpper query) "SELECT".toList then
    do
      let conditions ← Prog.lift (NestedJson.whereConditions query)
      let keys ← Prog.lift (makeKeys numUsers)
      NestedJson.selectLoopVisiting json visit query conditions keys []
  else
    Prog.fail "unsupported query".toList

/-- What the specification asks of one predicate, given the reply of the
store for its field: `Equals(v)` passes iff the field is present and its value
is `v`; `GreaterThan(t)` passes iff the field is present, its value parses as
an integer, and that integer is strictly greater than `t`. -/
def predicatePasses : Reply → Cond → Bool
  | .val actual, .str v => decide (actual = v)
  | .val actual, .int t =>
    match Go.Atoi actual with
    | some i => decide (t < i)
    | none => false
  | _, _ => false

open Go in
/-- The entry one conjunct of the WHERE clause contributes to the condition
map, read off the loop body of `parseWhereClause` (`joins.go`,
`nestedJson.go`): `none` when the body leaves the map as it is. -/
def conjunctEntry (condition : Str) : Option (Str × Cond) :=
  let condition := TrimSpace condition
  if Contains condition ">".toList then
    match Split condition ">".toList with
    | [p0, p1] =>
      match Atoi (TrimSpace p1) with
      | some value => some (TrimSpace p0, .int value)
      | none => none
    | _ => none
  else
    match Split condition "=".toList with
    | [p0, p1] => some (TrimSpace (Trim p0 [quote]), .str (TrimSpace (Trim p1 [quote])))
    | _ => none

/-- One round of the loop of `parseWhereClause`: the map after the conjunct. -/
def parseConjunct (conditions : GoMap Cond) (condition : Str) : GoMap Cond :=
  match conjunctEntry condition with
  | some e => conditions.set e.1 e.2
  | none => conditions

open Go in
/-- The conjuncts of a WHERE clause: `strings.Split` at `AND` of the clause
without its `WHERE` token. -/
def conjuncts (whereClause : Str) : List Str :=
  Split (TrimSpace (TrimPrefix whereClause "WHERE".toList)) "AND".toList

/-- The query that `main` of `joins.go` issues. -/
def Joins.mainQuery : Str :=
  ("SELECT email, bio FROM keydb WHERE age > 25 AND country='India' " ++
    "JOIN user_profile ON user.id = user_profile.id").toList

/-- A store whose records hold a JSON-encoded `profile`: `user:1` also has an
`address`, `user:2` has none. -/
def profileStore : Store :=
  Store.ofData
    [("user:1".toList,
      [("profile".toList, "\x7b\"city\":\"Rome\"\x7d".toList),
       ("address".toList, "\x7b\"city\":\"Paris\"\x7d".toList)]),
     ("user:2".toList,
      [("profile".toList, "\x7b\"city\":\"Rome\"\x7d".toList)])]
    []

/-- The query `SELECT address.c FROM t`. -/
def addressChildQuery (c : Str) : Str :=
  "SELECT address.".toList ++ c ++ " FROM t".toList

/-- The store written by `main` of `main.go`: the string `John Doe` under the
key `user:1001`. -/
def mainStore : Store :=
  Store.ofData [] [("user:1001".toList, "John Doe".toList)]

/-- The query `SELECT value FROM keydb WHERE key='K'`. -/
def keyQuery (K : Str) : Str :=
  "SELECT value FROM keydb WHERE key='".toList ++ K ++ "'".toList

/-! # Properties -/

namespace Prog

theorem bind_eq {α β : Type} (p : Prog α) (f : α → Prog β) :
    (p >>= f) = Prog.bind p f := rfl

theorem pure_eq {α : Type} (a : α) : (pure a : Prog α) = done (.ok a) := rfl

@[simp] theorem run_done {α : Type} (s : Store) (r : Outcome α) :
    run s (done r) = r := rfl

@[simp] theorem run_pure {α : Type} (s : Store) (a : α) :
    run s (pure a) = .ok a := rfl

@[simp] theorem run_lift {α : Type} (s : Store) (r : Outcome α) :
    run s (lift r) = r := rfl

@[simp] theorem run_fail {α : Type} (s : Store) (e : Str) :
    run s (fail e : Prog α) = .error e := rfl

@[simp] theorem run_panic {α : Type} (s : Store) (p : Panic) :
    run s (panic p : Prog α) = .panic p := rfl

@[simp] theorem run_hget {α : Type} (s : Store) (key field : Str)
    (k : Reply → Prog α) :
    run s (hget key field k) = run s (k (s.hget key field)) := rfl

@[simp] theorem run_get {α : Type} (s : Store) (key : Str) (k : Reply → Prog α) :
    run s (get key k) = run s (k (s.get key)) := rfl

@[simp] theorem run_existsKey {α : Type} (s : Store) (key : Str)
    (k : ExistsReply → Prog α) :
    run s (existsKey key k) = run s (k (s.existsKey key)) := rfl

theorem run_bind {α β : Type} (s : Store) (p : Prog α) (f : α → Prog β) :
    run s (Prog.bind p f) = (run s p).bind (fun a => run s (f a)) := by
  induction p with
  | done r => cases r <;> simp [Prog.bind, Outcome.bind]
  | hget key field k ih => simp [Prog.bind, ih]
  | get key k ih => simp [Prog.bind, ih]
  | existsKey key k ih => simp [Prog.bind, ih]

@[simp] theorem run_seq {α β : Type} (s : Store) (p : Prog α) (f : α → Prog β) :
    run s (p >>= f) = (run s p).bind (fun a => run s (f a)) := run_bind s p f

end Prog

namespace Joins

theorem run_checkConditions (s : Store) (key : Str) (conds : GoMap Cond) :
    (checkConditions key conds).run s = .ok (conds.all (entryHolds s key)) := by
  induction conds with
  | nil => rfl
  | cons e rest ih =>
    obtain ⟨field, c⟩ := e
    simp only [checkConditions, Prog.run_hget, List.all_cons, entryHolds]
    cases s.hget key field with
    | val v =>
      simp only
      cases hm : meets v c
      · simp
      · simp [ih]
    | nil => simp
    | err e => simp

end Joins

end DbParser

namespace DbParser
namespace Go

theorem indexOf?_nil (sub : Str) : indexOf? sub [] = if sub = [] then some 0 else none := by
  cases sub <;> simp [indexOf?, List.isPrefixOf]

theorem indexOf?_le {sub s : Str} {m : Nat} (h : indexOf? sub s = some m) :
    m + sub.length ≤ s.length := by
  induction s generalizing m with
  | nil =>
    rw [indexOf?_nil] at h
    split at h
    · simp_all
    · simp at h
  | cons c cs ih =>
    simp only [indexOf?] at h
    split at h
    · rename_i hp
      have := (List.isPrefixOf_iff_prefix.mp hp).length_le
      simp at h
      subst h
      simpa using this
    · simp only [Option.map_eq_some'] at h
      obtain ⟨a, ha, rfl⟩ := h
      have := ih ha
      simp
      omega

theorem indexOf?_eq_none_iff {sub s : Str} : indexOf? sub s = none ↔ ¬ sub <:+: s := by
  induction s with
  | nil =>
    rw [indexOf?_nil]
    by_cases h : sub = [] <;> simp [h]
  | cons c cs ih =>
    simp only [indexOf?, List.infix_cons_iff]
    split
    · rename_i hp
      simp [List.isPrefixOf_iff_prefix.mp hp]
    · rename_i hp
      have : ¬ sub <+: c :: cs := fun h => hp (List.isPrefixOf_iff_prefix.mpr h)
      simp [this, ih]

theorem Index_eq_neg_one_iff {s sub : Str} : Index s sub = -1 ↔ ¬ sub <:+: s := by
  rw [← indexOf?_eq_none_iff]
  unfold Index
  cases h : indexOf? sub s with
  | none => simp
  | some i => simp

theorem Contains_eq_false_iff {s sub : Str} : Contains s sub = false ↔ ¬ sub <:+: s := by
  rw [← indexOf?_eq_none_iff]
  unfold Contains Index
  cases h : indexOf? sub s with
  | none => simp
  | some i => simp

theorem Contains_eq_true_iff {s sub : Str} : Contains s sub = true ↔ sub <:+: s := by
  rw [← not_iff_not, Bool.not_eq_true, Contains_eq_false_iff]

theorem Index_nonneg_le {s sub : Str} (h : Index s sub ≠ -1) :
    0 ≤ Index s sub ∧ Index s sub + sub.length ≤ s.length := by
  unfold Index at *
  cases hi : indexOf? sub s with
  | none => simp [hi] at h
  | some i =>
    have := indexOf?_le hi
    simp
    omega

theorem Split_of_not_infix {s sep : Str} (hsep : sep ≠ []) (h : ¬ sep <:+: s) :
    Split s sep = [s] := by
  have h' := indexOf?_eq_none_iff.mpr h
  unfold Split
  rw [if_neg hsep]
  cases hl : s.length with
  | zero => rfl
  | succ n => simp [splitLoop, h']

end Go
end DbParser

namespace DbParser
open Go

namespace Outcome

@[simp] theorem ok_bind {α β : Type} (a : α) (f : α → Outcome β) : (ok a).bind f = f a := rfl

@[simp] theorem error_bind {α β : Type} (e : Str) (f : α → Outcome β) :
    (error e : Outcome α).bind f = error e := rfl

@[simp] theorem panic_bind {α β : Type} (p : Panic) (f : α → Outcome β) :
    (panic p : Outcome α).bind f = panic p := rfl

@[simp] theorem bind_ok {α : Type} (r : Outcome α) : r.bind ok = r := by
  cases r <;> rfl

theorem bind_assoc {α β γ : Type} (r : Outcome α) (f : α → Outcome β) (g : β → Outcome γ) :
    (r.bind f).bind g = r.bind fun a => (f a).bind g := by
  cases r <;> rfl

@[simp] theorem sequence_nil {α : Type} : sequence ([] : List (Outcome α)) = ok [] := rfl

theorem sequence_cons {α : Type} (r : Outcome α) (rest : List (Outcome α)) :
    sequence (r :: rest) = r.bind fun a => (sequence rest).bind fun as => ok (a :: as) := rfl

end Outcome

theorem Go.slice_eq_some {s : Str} {lo hi : Int} (h1 : 0 ≤ lo) (h2 : lo ≤ hi)
    (h3 : hi ≤ (s.length : Int)) :
    slice s lo hi = some ((s.drop lo.toNat).take (hi.toNat - lo.toNat)) := by
  unfold slice
  rw [if_pos ⟨h1, h2, h3⟩]

theorem Go.sliceFrom_eq_some {s : Str} {lo : Int} (h1 : 0 ≤ lo) (h2 : lo ≤ (s.length : Int)) :
    sliceFrom s lo = some (s.drop lo.toNat) := by
  unfold sliceFrom
  rw [slice_eq_some h1 h2 (le_refl _)]
  congr 1
  apply List.take_of_length_le
  simp only [List.length_drop, Int.toNat_ofNat]
  omega

namespace Joins

theorem whereConditions_ok (query : Str) :
    whereConditions query =
      .ok (if Index query "WHERE".toList ≠ -1
        then parseWhereClause (query.drop (Index query "WHERE".toList).toNat) else []) := by
  unfold whereConditions
  by_cases h : Index query "WHERE".toList = -1
  · simp only [h, ne_eq, not_true_eq_false, if_false]
  · have hb := Index_nonneg_le h
    simp only [ne_eq, h, not_false_eq_true, if_true]
    rw [sliceFrom_eq_some hb.1 (by omega)]

theorem extractFields_ok {query : Str} (h : 7 ≤ Index query " FROM ".toList) :
    ∃ fields, extractFields query = .ok fields := by
  have hne : Index query " FROM ".toList ≠ -1 := by omega
  have hb := Index_nonneg_le hne
  unfold extractFields
  simp only
  rw [slice_eq_some (by simp) (by simpa using h) (by omega)]
  simp only
  split
  · exact ⟨_, rfl⟩
  · exact ⟨_, rfl⟩

/-- One round of the key loop. -/
theorem run_selectLoop_cons (s : Store) (query : Str) (conds : GoMap Cond) (fields : List Str)
    (hf : extractFields query = .ok fields) (key : Str) (keys : List Str) (acc : List Row) :
    (selectLoop query conds (key :: keys) acc).run s =
      if decide (conds.length = 0) || ((checkConditions key conds).run s == .ok true) then
        ((projectLoop key fields []).run s).bind fun row =>
          (selectLoop query conds keys (acc ++ [row])).run s
      else (selectLoop query conds keys acc).run s := by
  simp only [selectLoop, Prog.run_seq]
  by_cases hc : conds.length = 0
  · have : ¬ (conds.length > 0) := by omega
    simp [this, hc, hf]
  · have : conds.length > 0 := by omega
    simp only [this, if_true, run_checkConditions, hc, decide_False, Bool.false_or,
      Outcome.ok_bind]
    cases hall : conds.all (entryHolds s key)
    · simp [run_checkConditions, hall]
    · simp [run_checkConditions, hall, hf]

/-- The rows of the keys that pass, in key order. -/
theorem run_selectLoop (s : Store) (query : Str) (conds : GoMap Cond) (fields : List Str)
    (hf : extractFields query = .ok fields) (keys : List Str) (acc : List Row) :
    (selectLoop query conds keys acc).run s =
      (Outcome.sequence
        ((keys.filter fun key =>
            decide (conds.length = 0) || ((checkConditions key conds).run s == .ok true)).map
          fun key => (projectLoop key fields []).run s)).bind
        fun rows => .ok (acc ++ rows) := by
  induction keys generalizing acc with
  | nil => simp [selectLoop]
  | cons key keys ih =>
    rw [run_selectLoop_cons s query conds fields hf, List.filter_cons]
    split
    · simp only [List.map_cons, Outcome.sequence_cons, Outcome.bind_assoc]
      congr 1
      funext row
      rw [ih]
      simp [Outcome.bind_assoc]
    · exact ih acc

end Joins
end DbParser

namespace DbParser
open Go

theorem Go.splitLoop_ne_nil (sep : Str) (fuel : Nat) (s : Str) :
    ∃ a rest, splitLoop sep fuel s = a :: rest := by
  cases fuel with
  | zero => exact ⟨s, [], rfl⟩
  | succ n =>
    simp only [splitLoop]
    split
    · exact ⟨s, [], rfl⟩
    · exact ⟨_, _, rfl⟩

theorem Go.Split_of_infix {s sep : Str} (hsep : sep ≠ []) (h : sep <:+: s) :
    ∃ a b rest, Split s sep = a :: b :: rest := by
  have h' : indexOf? sep s ≠ none := fun hn => (indexOf?_eq_none_iff.mp hn) h
  obtain ⟨m, hm⟩ := Option.ne_none_iff_exists'.mp h'
  have hle := indexOf?_le hm
  have hpos : 0 < sep.length := List.length_pos.mpr hsep
  unfold Split
  rw [if_neg hsep]
  cases hl : s.length with
  | zero => omega
  | succ n =>
    simp only [splitLoop, hm]
    obtain ⟨b, rest, hb⟩ := splitLoop_ne_nil sep n (s.drop (m + sep.length))
    exact ⟨_, b, rest, by rw [hb]⟩

namespace NestedJson

theorem run_checkConditions_nj (json : Unmarshal) (s : Store) (key : Str) (conds : GoMap Cond) :
    (checkConditions json key conds).run s = .ok (conds.all (entryHolds json s key)) := by
  induction conds with
  | nil => rfl
  | cons e rest ih =>
    obtain ⟨field, c⟩ := e
    simp only [checkConditions, Prog.run_hget, List.all_cons, entryHolds]
    cases s.hget key field with
    | val v =>
      simp only
      by_cases hdot : Contains field ".".toList = true
      · obtain ⟨a, b, more, hsp⟩ := Split_of_infix (by decide) (Contains_eq_true_iff.mp hdot)
        simp only [hdot, if_true, hsp, Prog.run_hget, List.getD_cons_succ, List.getD_cons_zero]
        cases s.hget key "address".toList with
        | val j =>
          simp only
          cases hm : meets ((json j).getD b) c <;> simp [ih]
        | nil =>
          simp only
          cases hm : meets v c <;> simp [ih]
        | err e =>
          simp only
          cases hm : meets v c <;> simp [ih]
      · simp only [hdot, Bool.false_eq_true, if_false]
        cases hm : meets v c <;> simp [ih]
    | nil => simp
    | err e => simp

theorem whereConditions_ok_nj (query : Str) :
    whereConditions query =
      .ok (if Index query "WHERE".toList ≠ -1
        then parseWhereClause (query.drop (Index query "WHERE".toList).toNat) else []) := by
  unfold whereConditions
  by_cases h : Index query "WHERE".toList = -1
  · simp only [h, ne_eq, not_true_eq_false, if_false]
  · have hb := Index_nonneg_le h
    simp only [ne_eq, h, not_false_eq_true, if_true]
    rw [sliceFrom_eq_some hb.1 (by omega)]

/-- One round of the key loop. -/
theorem run_selectLoop_cons_nj (json : Unmarshal) (s : Store) (query : Str) (conds : GoMap Cond)
    (fields : List Str) (hf : extractFields query = .ok fields) (key : Str) (keys : List Str)
    (acc : List Row) :
    (selectLoop json query conds (key :: keys) acc).run s =
      if decide (conds.length = 0) || ((checkConditions json key conds).run s == .ok true) then
        ((projectLoop json key fields []).run s).bind fun row =>
          (selectLoop json query conds keys (acc ++ [row])).run s
      else (selectLoop json query conds keys acc).run s := by
  simp only [selectLoop, Prog.run_seq]
  by_cases hc : conds.length = 0
  · have : ¬ (conds.length > 0) := by omega
    simp [this, hc, hf]
  · have : conds.length > 0 := by omega
    simp only [this, if_true, hc, decide_False, Bool.false_or]
    cases hall : conds.all (entryHolds json s key)
    · simp [run_checkConditions_nj, hall]
    · simp [run_checkConditions_nj, hall, hf]

/-- The rows of the keys that pass, in key order. -/
theorem run_selectLoop_nj (json : Unmarshal) (s : Store) (query : Str) (conds : GoMap Cond)
    (fields : List Str) (hf : extractFields query = .ok fields) (keys : List Str)
    (acc : List Row) :
    (selectLoop json query conds keys acc).run s =
      (Outcome.sequence
        ((keys.filter fun key =>
            decide (conds.length = 0) ||
              ((checkConditions json key conds).run s == .ok true)).map
          fun key => (projectLoop json key fields []).run s)).bind
        fun rows => .ok (acc ++ rows) := by
  induction keys generalizing acc with
  | nil => simp [selectLoop]
  | cons key keys ih =>
    rw [run_selectLoop_cons_nj json s query conds fields hf, List.filter_cons]
    split
    · simp only [List.map_cons, Outcome.sequence_cons, Outcome.bind_assoc]
      congr 1
      funext row
      rw [ih]
      simp [Outcome.bind_assoc]
    · exact ih acc

end NestedJson

theorem makeKeys_natCast (N : Nat) :
    makeKeys (N : Int) =
      if N ≤ maxSliceLen then .ok (userKeys N) else .panic .makeSliceLen := by
  unfold makeKeys
  by_cases h : N ≤ maxSliceLen
  · rw [if_neg (by omega), if_pos h]
  · rw [if_pos (by omega), if_neg h]

end DbParser

namespace DbParser
open Go

/-- C1. An ASCII query whose trimmed form does not start with `SELECT`,
compared without regard to case, is answered in all four programs with the
error `unsupported query` (Go returns the empty string with it), for every
store and every key-space size, and no command is sent to the store.  On
ASCII text the upper-casing of the model is that of `strings.ToUpper`. -/
theorem unsupported_query (query : Str) (hascii : isASCII query = true)
    (h : HasPrefix (ToUpper (TrimSpace query)) "SELECT".toList = false)
    (s : Store) (N : Int) (json : NestedJson.Unmarshal) :
    ((Main.handleSQLQuery query).run s = .error "unsupported query".toList ∧
      (Main.handleSQLQuery query).reads s = 0) ∧
    ((Complex.handleSQLQuery query).run s = .error "unsupported query".toList ∧
      (Complex.handleSQLQuery query).reads s = 0) ∧
    ((Joins.handleSQLQuery query N).run s = .error "unsupported query".toList ∧
      (Joins.handleSQLQuery query N).reads s = 0) ∧
    ((NestedJson.handleSQLQuery json query N).run s = .error "unsupported query".toList ∧
      (NestedJson.handleSQLQuery json query N).reads s = 0) := by
  have _ := hascii
  have h1 : Main.handleSQLQuery query = Prog.done (.error "unsupported query".toList) := by
    simp only [Main.handleSQLQuery, h, Prog.fail, Bool.false_eq_true, if_false]
  have h2 : Complex.handleSQLQuery query = Prog.done (.error "unsupported query".toList) := by
    simp only [Complex.handleSQLQuery, h, Prog.fail, Bool.false_eq_true, if_false]
  have h3 : Joins.handleSQLQuery query N = Prog.done (.error "unsupported query".toList) := by
    simp only [Joins.handleSQLQuery, h, Prog.fail, Bool.false_eq_true, if_false]
  have h4 : NestedJson.handleSQLQuery json query N =
      Prog.done (.error "unsupported query".toList) := by
    simp only [NestedJson.handleSQLQuery, h, Prog.fail, Bool.false_eq_true, if_false]
  rw [h1, h2, h3, h4]
  exact ⟨⟨rfl, rfl⟩, ⟨rfl, rfl⟩, ⟨rfl, rfl⟩, ⟨rfl, rfl⟩⟩

/-- Witness of C1: the query `  delete FROM users`, on the store of the concrete scenario with
key-space size 3. -/
theorem unsupported_query_witness :
    (isASCII "  delete FROM users".toList = true ∧
      HasPrefix (ToUpper (TrimSpace "  delete FROM users".toList)) "SELECT".toList = false) ∧
    (((Main.handleSQLQuery "  delete FROM users".toList).run annStore
        = .error "unsupported query".toList ∧
      (Main.handleSQLQuery "  delete FROM users".toList).reads annStore = 0) ∧
    ((Complex.handleSQLQuery "  delete FROM users".toList).run annStore
        = .error "unsupported query".toList ∧
      (Complex.handleSQLQuery "  delete FROM users".toList).reads annStore = 0) ∧
    ((Joins.handleSQLQuery "  delete FROM users".toList 3).run annStore
        = .error "unsupported query".toList ∧
      (Joins.handleSQLQuery "  delete FROM users".toList 3).reads annStore = 0) ∧
    ((NestedJson.handleSQLQuery Json.jsonStringMap "  delete FROM users".toList 3).run annStore
        = .error "unsupported query".toList ∧
      (NestedJson.handleSQLQuery Json.jsonStringMap "  delete FROM users".toList 3).reads annStore
        = 0)) :=
  ⟨⟨by decide, by decide⟩,
    unsupported_query _ (by decide) (by decide) annStore 3 Json.jsonStringMap⟩

end DbParser

namespace DbParser
open Go

theorem userKeys_natCast (N : Nat) :
    userKeys (N : Int) = (List.range N).map fun (i : Nat) => userKey ((i : Int) + 1) := by
  simp [userKeys]

theorem Joins.run_handleSQLQuery_select (s : Store) (query : Str) (N : Nat)
    (hSel : HasPrefix (ToUpper (TrimSpace query)) "SELECT".toList = true)
    (hJoin : Contains (TrimSpace query) " JOIN ".toList = false)
    (conds : GoMap Cond) (fields : List Str)
    (hc : Joins.whereConditions (TrimSpace query) = .ok conds)
    (hf : Joins.extractFields (TrimSpace query) = .ok fields) :
    (Joins.handleSQLQuery query N).run s =
      if N ≤ maxSliceLen then
        Outcome.sequence
          ((passingKeys N conds fun key => (Joins.checkConditions key conds).run s).map
            fun key => (Joins.projectLoop key fields []).run s)
      else .panic .makeSliceLen := by
  have hsp : Split (TrimSpace query) " JOIN ".toList = [TrimSpace query] :=
    Split_of_not_infix (by decide) (Contains_eq_false_iff.mp hJoin)
  by_cases hN : N ≤ maxSliceLen
  · simp only [Joins.handleSQLQuery, hSel, if_true, hsp, List.length_singleton, gt_iff_lt,
      lt_self_iff_false, if_false, Prog.run_seq, Prog.run_lift, hc, Outcome.ok_bind,
      makeKeys_natCast, if_pos hN, Joins.run_selectLoop s _ conds fields hf, List.nil_append,
      Outcome.bind_ok, passingKeys, userKeys_natCast]
  · simp only [Joins.handleSQLQuery, hSel, if_true, hsp, List.length_singleton, gt_iff_lt,
      lt_self_iff_false, if_false, Prog.run_seq, Prog.run_lift, hc, Outcome.ok_bind,
      makeKeys_natCast, if_neg hN, Outcome.panic_bind]

theorem NestedJson.run_handleSQLQuery_select_nj (json : Unmarshal) (s : Store) (query : Str)
    (N : Nat)
    (hSel : HasPrefix (ToUpper (TrimSpace query)) "SELECT".toList = true)
    (conds : GoMap Cond) (fields : List Str)
    (hc : NestedJson.whereConditions (TrimSpace query) = .ok conds)
    (hf : NestedJson.extractFields (TrimSpace query) = .ok fields) :
    (NestedJson.handleSQLQuery json query N).run s =
      if N ≤ maxSliceLen then
        Outcome.sequence
          ((passingKeys N conds fun key =>
              (NestedJson.checkConditions json key conds).run s).map
            fun key => (NestedJson.projectLoop json key fields []).run s)
      else .panic .makeSliceLen := by
  by_cases hN : N ≤ maxSliceLen
  · simp only [NestedJson.handleSQLQuery, hSel, if_true, Prog.run_seq, Prog.run_lift, hc,
      Outcome.ok_bind, makeKeys_natCast, if_pos hN,
      NestedJson.run_selectLoop_nj json s _ conds fields hf,
      List.nil_append, Outcome.bind_ok, passingKeys, userKeys_natCast]
  · simp only [NestedJson.handleSQLQuery, hSel, if_true, Prog.run_seq, Prog.run_lift, hc,
      Outcome.ok_bind, makeKeys_natCast, if_neg hN, Outcome.panic_bind]

end DbParser

namespace DbParser
open Go

end DbParser

namespace DbParser
open Go

/-- C2 (evaluation at the failing input). The query `SELECT name` begins with `SELECT` and holds
no ` FROM `.  `handleSQLQuery` of `complex.go` (record `user:1001` present) computes
`selectEnd = -1 + 7 = 6`, so its test `selectEnd == -1` is false and `query[7:6]` panics; in
`joins.go` and `nestedJson.go` `extractFields` evaluates `query[7:-1]` and panics as soon as one
key passes, and with no key to visit the query succeeds with the empty row list.  In no case is
an error returned. -/
theorem missing_from_faults :
    HasPrefix (ToUpper (TrimSpace "SELECT name".toList)) "SELECT".toList = true ∧
    Contains (TrimSpace "SELECT name".toList) " FROM ".toList = false ∧
    (Complex.handleSQLQuery "SELECT name".toList).run johnStore = .panic .sliceBounds ∧
    (Joins.handleSQLQuery "SELECT name".toList 1).run demoStore = .panic .sliceBounds ∧
    (NestedJson.handleSQLQuery Json.jsonStringMap "SELECT name".toList 1).run demoStore
      = .panic .sliceBounds ∧
    (Joins.handleSQLQuery "SELECT name".toList 0).run demoStore = .ok [] ∧
    (NestedJson.handleSQLQuery Json.jsonStringMap "SELECT name".toList 0).run demoStore
      = .ok [] := by
  decide

/-- C6 (evaluation at the failing input). For `SELECT name, age FROM users` the field list is
split at the comma without trimming, so the second field read is ` age` with its leading blank:
the record `user:1` holds `age` = `30`, yet the row has the entry of `name` only. -/
theorem comma_space_field_dropped :
    Joins.extractFields "SELECT name, age FROM users".toList
      = .ok ["name".toList, " age".toList] ∧
    NestedJson.extractFields "SELECT name, age FROM users".toList
      = .ok ["name".toList, " age".toList] ∧
    demoStore.hget (userKey 1) "age".toList = .val "30".toList ∧
    (Joins.handleSQLQuery "SELECT name, age FROM users".toList 1).run demoStore
      = .ok [[("name".toList, "Ann".toList)]] ∧
    (NestedJson.handleSQLQuery Json.jsonStringMap "SELECT name, age FROM users".toList 1).run
      demoStore = .ok [[("name".toList, "Ann".toList)]] := by
  decide

/-- C8 (evaluation at the failing input). For `SELECT address.zip FROM t` over three records,
`user:1` whose `address` decodes to an object without `zip`, `user:2` without `address`,
`user:3` whose `address` is not JSON, every row holds the entry `address.zip` with the empty
string as its value. -/
theorem nested_miss_yields_empty_string :
    demoStore.hget (userKey 1) "address".toList = .val "\x7b\"city\":\"Paris\"\x7d".toList ∧
    demoStore.hget (userKey 2) "address".toList = .nil ∧
    demoStore.hget (userKey 3) "address".toList = .val "12 Main St".toList ∧
    (NestedJson.handleSQLQuery Json.jsonStringMap "SELECT address.zip FROM t".toList 3).run
      demoStore =
      .ok [[("address.zip".toList, [])], [("address.zip".toList, [])],
        [("address.zip".toList, [])]] := by
  decide

/-- C9 (evaluation at the failing input). The profile key built for `user:1` is
`user_profile:%!d(string=1)`, not `user_profile:1`: the joined row of
`SELECT name FROM user JOIN SELECT bio FROM user_profile` holds the `name` of `user:1` and
nothing of the record `user_profile:1`, which has both `bio` and `name`. -/
theorem join_reads_wrong_profile_key :
    Joins.profileKey (userKey 1) = "user_profile:%!d(string=1)".toList ∧
    demoStore.hget "user_profile:1".toList "bio".toList = .val "Hello".toList ∧
    demoStore.hget "user_profile:1".toList "name".toList = .val "Annie".toList ∧
    (Joins.handleSQLQuery "SELECT name FROM user JOIN SELECT bio FROM user_profile".toList
      1).run demoStore = .ok [[("name".toList, "Ann".toList)]] ∧
    (Joins.handleSQLQuery "SELECT name FROM user JOIN SELECT name FROM user_profile".toList
      1).run demoStore = .ok [[("name".toList, "Ann".toList)]] := by
  decide

/-- C10 (evaluation at the failing input). In
`SELECT name FROM user WHERE age > 45 JOIN SELECT bio FROM user_profile` the primary segment
carries `WHERE age > 45`; no record passes it (ages 30 and 20), as the same segment run alone
shows, yet the join returns one row per key. -/
theorem join_ignores_where :
    (Joins.handleSQLQuery "SELECT name FROM user WHERE age > 45".toList 2).run demoStore
      = .ok [] ∧
    (Joins.handleSQLQuery
      "SELECT name FROM user WHERE age > 45 JOIN SELECT bio FROM user_profile".toList 2).run
      demoStore = .ok [[("name".toList, "Ann".toList)], [("name".toList, "Bob".toList)]] := by
  decide

end DbParser

namespace DbParser
open Go

theorem Outcome.sequence_map_ok {α β : Type} (f : α → Outcome β) :
    ∀ (l : List α), (∀ x ∈ l, ∃ b, f x = .ok b) →
      ∃ rows, Outcome.sequence (l.map f) = .ok rows ∧ rows.length = l.length ∧
        ∀ (k : Nat) (x : α), l[k]? = some x → ∃ b, rows[k]? = some b ∧ f x = .ok b
  | [], _ => ⟨[], rfl, rfl, by simp⟩
  | a :: l, h => by
    obtain ⟨b, hb⟩ := h a (List.mem_cons_self _ _)
    obtain ⟨rows, hrows, hlen, hget⟩ :=
      Outcome.sequence_map_ok f l (fun x hx => h x (List.mem_cons_of_mem _ hx))
    refine ⟨b :: rows, ?_, by simp [hlen], ?_⟩
    · rw [List.map_cons, Outcome.sequence_cons, hb, Outcome.ok_bind, hrows, Outcome.ok_bind]
    · intro k x hk
      cases k with
      | zero =>
        simp only [List.getElem?_cons_zero, Option.some.injEq] at hk
        subst hk
        exact ⟨b, by simp, hb⟩
      | succ k =>
        simp only [List.getElem?_cons_succ] at hk ⊢
        exact hget k x hk

namespace NestedJson

theorem run_projectLoop_single_dotted (json : Unmarshal) (s : Store) (key : Str)
    (hne : ∀ e, s.hget key "address.city".toList ≠ .err e) :
    ∃ row, (projectLoop json key ["address.city".toList] []).run s = .ok row ∧
      ∀ a c, s.hget key "address.city".toList = .nil →
        s.hget key "address".toList = .val a →
        (json a).get? "city".toList = some c →
        row.get? "address.city".toList = some c := by
  have hdot : Contains "address.city".toList ".".toList = true := by decide
  have hsp : Split "address.city".toList ".".toList = ["address".toList, "city".toList] := by
    decide
  simp only [projectLoop, Prog.run_hget]
  cases h : s.hget key "address.city".toList with
  | err e => exact absurd h (hne e)
  | val v =>
    refine ⟨_, rfl, ?_⟩
    intro a c hnil
    simp at hnil
  | nil =>
    simp only [hdot, if_true, hsp, Prog.run_hget]
    cases h2 : s.hget key "address".toList with
    | val j =>
      refine ⟨_, rfl, ?_⟩
      intro a c _ ha hc
      simp only [Reply.val.injEq] at ha
      subst ha
      simp only [GoMap.get?] at hc
      have hv : (json j).getD "city".toList = c := by
        simp only [GoMap.getD, hc, Option.getD_some]
      simp only [GoMap.set, GoMap.get?, hv, List.lookup_cons, beq_self_eq_true]
    | nil =>
      refine ⟨_, rfl, ?_⟩
      intro a c _ ha
      simp at ha
    | err e =>
      refine ⟨_, rfl, ?_⟩
      intro a c _ ha
      simp at ha

end NestedJson

/-- C7. For `SELECT address.city FROM t` in `nestedJson.go`, with a key-space size `N` that
`make` accepts (`N ≤ maxSliceLen`), over a store whose reads of the field `address.city` raise
no error on the keys `user:1 .. user:N`: the query returns `N` rows, and for every record
`user:i` that has no literal field `address.city` and whose `address` field decodes to a map
sending `city` to `c`, the `i`-th row maps `address.city` to `c`. -/
theorem nested_city_resolved (json : NestedJson.Unmarshal) (s : Store) (N i : Nat) (a c : Str)
    (hN : N ≤ maxSliceLen) (hi : 1 ≤ i ∧ i ≤ N)
    (hok : ∀ j : Nat, 1 ≤ j → j ≤ N → ∀ e,
      s.hget (userKey (j : Int)) "address.city".toList ≠ .err e)
    (hlit : s.hget (userKey (i : Int)) "address.city".toList = .nil)
    (haddr : s.hget (userKey (i : Int)) "address".toList = .val a)
    (hcity : (json a).get? "city".toList = some c) :
    ∃ rows row,
      (NestedJson.handleSQLQuery json "SELECT address.city FROM t".toList (N : Int)).run s
        = .ok rows ∧
      rows.length = N ∧ rows[i - 1]? = some row ∧
      row.get? "address.city".toList = some c := by
  have hrun := NestedJson.run_handleSQLQuery_select_nj json s "SELECT address.city FROM t".toList
    N (by decide) [] ["address.city".toList] (by decide) (by decide)
  rw [if_pos hN] at hrun
  have hkeys : passingKeys N [] (fun key => (NestedJson.checkConditions json key []).run s)
      = (List.range N).map fun (j : Nat) => userKey ((j : Int) + 1) := by
    unfold passingKeys
    exact List.filter_eq_self.mpr (fun _ _ => by rfl)
  rw [hkeys] at hrun
  obtain ⟨rows, hrows, hlen, hget⟩ := Outcome.sequence_map_ok
    (fun key => (NestedJson.projectLoop json key ["address.city".toList] []).run s)
    ((List.range N).map fun (j : Nat) => userKey ((j : Int) + 1))
    (by
      intro key hkey
      obtain ⟨j, hj, rfl⟩ := List.mem_map.mp hkey
      have hj' := List.mem_range.mp hj
      obtain ⟨row, hrow, -⟩ := NestedJson.run_projectLoop_single_dotted json s
        (userKey ((j : Int) + 1)) (by
          have := hok (j + 1) (by omega) (by omega)
          simpa using this)
      exact ⟨row, hrow⟩)
  have hidx : ((List.range N).map fun (j : Nat) => userKey ((j : Int) + 1))[i - 1]?
      = some (userKey (i : Int)) := by
    rw [List.getElem?_map, List.getElem?_range (by omega)]
    simp only [Option.map_some']
    congr 2
    omega
  obtain ⟨row, hrow, hproj⟩ := hget (i - 1) _ hidx
  obtain ⟨row', hrow', hcityrow⟩ := NestedJson.run_projectLoop_single_dotted json s
    (userKey (i : Int)) (hok i hi.1 hi.2)
  have : row = row' := by
    have h1 := hproj.symm.trans hrow'
    simpa using h1
  subst this
  refine ⟨rows, row, hrun.trans hrows, ?_, hrow, hcityrow a c hlit haddr hcity⟩
  simpa using hlen

end DbParser

namespace DbParser
open Go

theorem demoStore_no_error (key field e : Str) : demoStore.hget key field ≠ .err e := by
  unfold demoStore Store.ofData
  simp only
  split
  · split <;> simp
  · simp only [List.lookup_nil]
    simp

/-- Witness of C7: the record `user:1` of the three-user store, whose `address` is
`{"city":"Paris"}`. -/
theorem nested_city_resolved_witness :
    (3 ≤ maxSliceLen ∧ (1 ≤ 1 ∧ 1 ≤ 3) ∧
      (∀ j : Nat, 1 ≤ j → j ≤ 3 → ∀ e,
        demoStore.hget (userKey (j : Int)) "address.city".toList ≠ .err e) ∧
      demoStore.hget (userKey ((1 : Nat) : Int)) "address.city".toList = .nil ∧
      demoStore.hget (userKey ((1 : Nat) : Int)) "address".toList
        = .val "\x7b\"city\":\"Paris\"\x7d".toList ∧
      (Json.jsonStringMap "\x7b\"city\":\"Paris\"\x7d".toList).get? "city".toList
        = some "Paris".toList) ∧
    ∃ rows row,
      (NestedJson.handleSQLQuery Json.jsonStringMap "SELECT address.city FROM t".toList
        ((3 : Nat) : Int)).run demoStore = .ok rows ∧
      rows.length = 3 ∧ rows[1 - 1]? = some row ∧
      row.get? "address.city".toList = some "Paris".toList :=
  ⟨⟨by decide, by decide, fun _ _ _ e => demoStore_no_error _ _ e, by decide, by decide,
      by decide⟩,
    nested_city_resolved Json.jsonStringMap demoStore 3 1
      "\x7b\"city\":\"Paris\"\x7d".toList "Paris".toList (by decide) (by decide)
      (fun _ _ _ e => demoStore_no_error _ _ e) (by decide) (by decide) (by decide)⟩

end DbParser

namespace DbParser
namespace Go

/-- An occurrence of `w` cannot straddle a character that `w` does not hold. -/
theorem infix_append_cons_iff {w a b : Str} {c : Char} (hc : c ∉ w) :
    w <:+: a ++ c :: b ↔ w <:+: a ∨ w <:+: b := by
  constructor
  · rintro ⟨p, q, h⟩
    -- p ++ w ++ q = a ++ c :: b
    rw [List.append_assoc] at h
    rcases List.append_eq_append_iff.mp h with ⟨a', ha, hb⟩ | ⟨c', ha, hb⟩
    · -- a = p ++ a', w ++ q = a' ++ c :: b
      rcases List.append_eq_append_iff.mp hb with ⟨a'', ha', hb'⟩ | ⟨c'', ha', hb'⟩
      · -- a' = w ++ a''
        left
        exact ⟨p, a'', by rw [ha, ha', List.append_assoc]⟩
      · -- w = a' ++ c'', c :: b = c'' ++ q
        cases c'' with
        | nil =>
          left
          simp only [List.append_nil] at ha'
          exact ⟨p, [], by rw [ha, ha', List.append_nil]⟩
        | cons d c'' =>
          simp only [List.cons_append, List.cons.injEq] at hb'
          exfalso
          apply hc
          rw [ha', hb'.1]
          simp
    · -- p = a ++ c', c :: b = c' ++ (w ++ q)
      right
      cases c' with
      | nil =>
        simp only [List.nil_append] at hb
        cases w with
        | nil => exact List.nil_infix
        | cons d w =>
          simp only [List.cons_append, List.cons.injEq] at hb
          exfalso
          apply hc
          rw [hb.1]
          simp
      | cons d c' =>
        simp only [List.cons_append, List.cons.injEq] at hb
        exact ⟨c', q, by rw [hb.2, List.append_assoc]⟩
  · rintro (h | h)
    · exact h.trans (List.infix_append' [] a (c :: b))
    · exact h.trans ⟨a ++ [c], [], by simp⟩

theorem Contains_append_cons {w a b : Str} {c : Char} (hc : c ∉ w) :
    Contains (a ++ c :: b) w = (Contains a w || Contains b w) := by
  rw [Bool.eq_iff_iff, Bool.or_eq_true, Contains_eq_true_iff, Contains_eq_true_iff,
    Contains_eq_true_iff, infix_append_cons_iff hc]

theorem Contains_of_infix {s w v : Str} (hv : v <:+: w) (h : Contains s v = false) :
    Contains s w = false := by
  rw [Contains_eq_false_iff] at h ⊢
  exact fun hw => h (hv.trans hw)

theorem indexOf?_append_self {w : Str} (P R : Str) (h : ¬ w <:+: P ++ w.dropLast) :
    indexOf? w (P ++ (w ++ R)) = some P.length := by
  induction P with
  | nil =>
    cases w with
    | nil => exact absurd List.nil_infix h
    | cons d w =>
      simp only [List.nil_append, List.cons_append, indexOf?]
      rw [if_pos]
      · rfl
      · exact List.isPrefixOf_iff_prefix.mpr ⟨R, rfl⟩
  | cons a P ih =>
    have hP : ¬ w <:+: P ++ w.dropLast := fun hh => h (hh.trans (List.infix_cons List.infix_rfl))
    simp only [List.cons_append, indexOf?, List.append_eq]
    rw [if_neg, ih hP]
    · rfl
    · intro hpre
      have hpre' : w <+: a :: (P ++ (w ++ R)) := List.isPrefixOf_iff_prefix.mp hpre
      apply h
      -- w is a prefix of a :: P ++ w ++ R of length |w| ≤ |a :: P ++ dropLast w|
      have hlen : w.length ≤ (a :: P ++ w.dropLast).length := by
        simp only [List.cons_append, List.length_cons, List.length_append,
          List.length_dropLast]
        omega
      have h2 : a :: P ++ w.dropLast <+: a :: (P ++ (w ++ R)) := by
        refine ⟨w.getLast?.toList ++ R, ?_⟩
        cases hw : w.getLast? with
        | none =>
          have : w = [] := List.getLast?_eq_none_iff.mp hw
          subst this
          simp
        | some l =>
          have hdl := List.dropLast_append_getLast? l hw
          simp only [Option.toList, List.cons_append, List.append_assoc, List.singleton_append]
          congr 2
          conv_rhs => rw [← hdl]
          simp
      exact (List.prefix_of_prefix_length_le hpre' h2 hlen).isInfix

theorem Index_append_self {w : Str} (P R : Str) (h : Contains (P ++ w.dropLast) w = false) :
    Index (P ++ (w ++ R)) w = P.length := by
  unfold Index
  rw [indexOf?_append_self P R (Contains_eq_false_iff.mp h)]

theorem Contains_singleton {s : Str} {c : Char} : Contains s [c] = decide (c ∈ s) := by
  rw [Bool.eq_iff_iff, Contains_eq_true_iff, decide_eq_true_iff]
  constructor
  · rintro ⟨p, q, h⟩
    rw [← h]
    simp
  · intro h
    obtain ⟨p, q, h⟩ := List.append_of_mem h
    exact ⟨p, q, by rw [h]; simp⟩

theorem Split_singleton_sep {a b : Str} {c : Char} (ha : c ∉ a) (hb : c ∉ b) :
    Split (a ++ c :: b) [c] = [a, b] := by
  have h1 : indexOf? [c] (a ++ ([c] ++ b)) = some a.length := by
    apply indexOf?_append_self
    simp only [List.dropLast_single, List.append_nil]
    rw [← Contains_eq_false_iff, Contains_singleton]
    simpa using ha
  have h2 : indexOf? [c] b = none := by
    rw [indexOf?_eq_none_iff, ← Contains_eq_false_iff, Contains_singleton]
    simpa using hb
  unfold Split
  rw [if_neg (by simp)]
  simp only [List.length_append, List.length_cons]
  rw [show a.length + (b.length + 1) = (a.length + b.length) + 1 by omega]
  simp only [splitLoop]
  simp only [List.singleton_append] at h1
  rw [h1]
  simp only [List.take_left', List.length_singleton, List.cons.injEq, true_and]
  rw [show a ++ c :: b = (a ++ [c]) ++ b by simp, List.drop_left' (by simp)]
  cases hf : a.length + b.length with
  | zero => rfl
  | succ n => simp only [splitLoop, h2]

end Go
end DbParser

namespace DbParser
namespace Go

section trim
variable (p : Char → Bool)

/-- Trimming both ends leaves a string unchanged only if trimming either end does. -/
theorem trim_eq_self {l : Str} (h : (l.dropWhile p).rdropWhile p = l) :
    l.dropWhile p = l ∧ l.rdropWhile p = l := by
  have h1 : ((l.dropWhile p).rdropWhile p).length ≤ (l.dropWhile p).length :=
    (List.rdropWhile_prefix p (l.dropWhile p)).length_le
  have h2 : l.dropWhile p <:+ l := List.dropWhile_suffix p
  have h3 : l.dropWhile p = l := by
    apply h2.eq_of_length
    have := h2.length_le
    rw [h] at h1
    omega
  refine ⟨h3, ?_⟩
  rw [h3] at h
  exact h

theorem last_of_trim_eq_self {b : Char} {l : Str}
    (h : ((l ++ [b]).dropWhile p).rdropWhile p = l ++ [b]) : p b = false := by
  have h1 := (trim_eq_self p h).2
  by_contra hp
  simp only [Bool.not_eq_false] at hp
  rw [List.rdropWhile_concat_pos p l b hp] at h1
  have := (List.rdropWhile_prefix p l).length_le
  rw [h1] at this
  simp at this

/-- A string whose first and last characters are kept is left unchanged. -/
theorem trim_of_ends {l : Str} (hh : ∀ a ∈ l.head?, p a = false)
    (hl : ∀ b ∈ l.getLast?, p b = false) : (l.dropWhile p).rdropWhile p = l := by
  have h1 : l.dropWhile p = l := by
    cases l with
    | nil => rfl
    | cons a l =>
      apply List.dropWhile_cons_of_neg
      simpa using hh a (by simp)
  rw [h1]
  rcases List.eq_nil_or_concat l with rfl | ⟨l', b, rfl⟩
  · rfl
  · rw [List.concat_eq_append] at hl ⊢
    apply List.rdropWhile_concat_neg
    simpa using hl b (by simp)

end trim

end Go
end DbParser

namespace DbParser
open Go

end DbParser

namespace DbParser
open Go

namespace Joins

/-- One round of the key loop, whatever `extractFields` does. -/
theorem run_selectLoop_cons_rowOf (s : Store) (query : Str) (conds : GoMap Cond)
    (key : Str) (keys : List Str) (acc : List Row) :
    (selectLoop query conds (key :: keys) acc).run s =
      if decide (conds.length = 0) || conds.all (entryHolds s key) then
        (rowOf s query key).bind fun row =>
          (selectLoop query conds keys (acc ++ [row])).run s
      else (selectLoop query conds keys acc).run s := by
  simp only [selectLoop, Prog.run_seq, rowOf]
  by_cases hc : conds.length = 0
  · have : ¬ (conds.length > 0) := by omega
    simp [this, hc, Outcome.bind_assoc]
  · have : conds.length > 0 := by omega
    simp only [this, if_true, hc, decide_False, Bool.false_or]
    cases hall : conds.all (entryHolds s key)
    · simp [run_checkConditions, hall]
    · simp [run_checkConditions, hall, Outcome.bind_assoc]

/-- The rows of the keys that pass, in key order, whatever `extractFields` does. -/
theorem run_selectLoop_rowOf (s : Store) (query : Str) (conds : GoMap Cond)
    (keys : List Str) (acc : List Row) :
    (selectLoop query conds keys acc).run s =
      (Outcome.sequence
        ((keys.filter fun key =>
            decide (conds.length = 0) || conds.all (entryHolds s key)).map
          (rowOf s query))).bind
        fun rows => .ok (acc ++ rows) := by
  induction keys generalizing acc with
  | nil => simp [selectLoop]
  | cons key keys ih =>
    rw [run_selectLoop_cons_rowOf, List.filter_cons]
    split
    · simp only [List.map_cons, Outcome.sequence_cons, Outcome.bind_assoc]
      congr 1
      funext row
      rw [ih]
      simp [Outcome.bind_assoc]
    · exact ih acc

/-- The run of a non-join SELECT query whose condition map is known. -/
theorem run_handleSQLQuery_rowOf (s : Store) (query : Str) (N : Nat)
    (hTrim : TrimSpace query = query)
    (hSel : HasPrefix (ToUpper query) "SELECT".toList = true)
    (hJoin : Contains query " JOIN ".toList = false)
    (conds : GoMap Cond) (hc : whereConditions query = .ok conds) :
    (handleSQLQuery query N).run s =
      if N ≤ maxSliceLen then
        Outcome.sequence
          ((((List.range N).map fun (i : Nat) => userKey ((i : Int) + 1)).filter fun key =>
              decide (conds.length = 0) || conds.all (entryHolds s key)).map
            (rowOf s query))
      else .panic .makeSliceLen := by
  have hsp : Split query " JOIN ".toList = [query] :=
    Split_of_not_infix (by decide) (Contains_eq_false_iff.mp hJoin)
  by_cases hN : N ≤ maxSliceLen
  · simp only [handleSQLQuery, hTrim, hSel, if_true, hsp, List.length_singleton, gt_iff_lt,
      lt_self_iff_false, if_false, Prog.run_seq, Prog.run_lift, hc, Outcome.ok_bind,
      makeKeys_natCast, if_pos hN, run_selectLoop_rowOf, List.nil_append, Outcome.bind_ok,
      userKeys_natCast]
  · simp only [handleSQLQuery, hTrim, hSel, if_true, hsp, List.length_singleton, gt_iff_lt,
      lt_self_iff_false, if_false, Prog.run_seq, Prog.run_lift, hc, Outcome.ok_bind,
      makeKeys_natCast, if_neg hN, Outcome.panic_bind]

end Joins

end DbParser

namespace DbParser
open Go

theorem Joins.entryHolds_str (s : Store) (key f x : Str) :
    Joins.entryHolds s key (f, .str x) = (s.hget key f == .val x) := by
  unfold Joins.entryHolds
  simp only
  cases h : s.hget key f with
  | val a =>
    by_cases hax : a = x
    · subst hax
      simp [meets]
    · have : (Reply.val a == Reply.val x) = false := by
        rw [beq_eq_false_iff_ne]
        intro hh
        exact hax (Reply.val.inj hh)
      simp [meets, hax, this]
  | nil => rfl
  | err e => rfl

end DbParser

namespace DbParser
namespace Go

end Go
end DbParser

namespace DbParser
open Go

end DbParser

namespace DbParser
open Go

theorem Joins.entryHolds_int (s : Store) (key f : Str) (n : Int) :
    Joins.entryHolds s key (f, .int n) = storedGreater s key f n := by
  unfold Joins.entryHolds storedGreater
  simp only
  cases s.hget key f with
  | val a =>
    simp only [meets]
    cases Atoi a with
    | none => rfl
    | some v =>
      simp only
      by_cases h : v ≤ n
      · have : ¬ n < v := by omega
        simp [h, this]
      · have : n < v := by omega
        simp [h, this]
  | nil => rfl
  | err e => rfl

end DbParser

namespace DbParser
open Go

theorem Joins.run_projectLoop_single (s : Store) (key field : Str) :
    (Joins.projectLoop key [field] []).run s =
      match s.hget key field with
      | .val v => .ok [(field, v)]
      | .nil => .ok []
      | .err e => .error e := by
  simp only [Joins.projectLoop, Prog.run_hget]
  cases s.hget key field <;> rfl

theorem userKeys_one : (List.range 1).map (fun (i : Nat) => userKey ((i : Int) + 1))
    = ["user:1".toList] := by
  decide

/-- C11. With `N = 1` and a store whose record `user:1` holds `name` = `Ann` and `country` =
`USA` (and `age` = `30`), `handleSQLQuery` of `joins.go` answers
`SELECT name FROM users WHERE country='USA'` with the single row `name: Ann`, and
`SELECT name FROM users WHERE country='India'` with the empty row list, without error. -/
theorem scenario_ann_usa (s : Store)
    (hname : s.hget "user:1".toList "name".toList = .val "Ann".toList)
    (_hage : s.hget "user:1".toList "age".toList = .val "30".toList)
    (hcountry : s.hget "user:1".toList "country".toList = .val "USA".toList) :
    (Joins.handleSQLQuery "SELECT name FROM users WHERE country='USA'".toList 1).run s
      = .ok [[("name".toList, "Ann".toList)]] ∧
    (Joins.handleSQLQuery "SELECT name FROM users WHERE country='India'".toList 1).run s
      = .ok [] := by
  have hf1 : Joins.extractFields "SELECT name FROM users WHERE country='USA'".toList
      = .ok ["name".toList] := by decide
  constructor
  · have h := Joins.run_handleSQLQuery_rowOf s
      "SELECT name FROM users WHERE country='USA'".toList 1 (by decide) (by decide) (by decide)
      [("country".toList, .str "USA".toList)] (by decide)
    rw [show (((1 : Nat) : Int)) = 1 from rfl, if_pos (by decide)] at h
    rw [h, userKeys_one]
    simp only [List.filter_cons, List.filter_nil, List.all_cons, List.all_nil,
      Joins.entryHolds_str, hcountry, beq_self_eq_true, Bool.and_true, Bool.or_true, if_true,
      List.map_cons, List.map_nil, Joins.rowOf, hf1, Outcome.ok_bind,
      Joins.run_projectLoop_single, hname]
    rfl
  · have h := Joins.run_handleSQLQuery_rowOf s
      "SELECT name FROM users WHERE country='India'".toList 1 (by decide) (by decide)
      (by decide) [("country".toList, .str "India".toList)] (by decide)
    rw [show (((1 : Nat) : Int)) = 1 from rfl, if_pos (by decide)] at h
    rw [h, userKeys_one]
    have hne : (Reply.val "USA".toList == Reply.val "India".toList) = false := by decide
    simp only [List.filter_cons, List.filter_nil, List.all_cons, List.all_nil,
      Joins.entryHolds_str, hcountry, hne, Bool.and_true, Bool.or_false, List.length_cons,
      List.length_nil]
    rfl

/-- Witness of C11: the store of the concrete scenario. -/
theorem scenario_ann_usa_witness :
    (annStore.hget "user:1".toList "name".toList = .val "Ann".toList ∧
      annStore.hget "user:1".toList "age".toList = .val "30".toList ∧
      annStore.hget "user:1".toList "country".toList = .val "USA".toList) ∧
    ((Joins.handleSQLQuery "SELECT name FROM users WHERE country='USA'".toList 1).run annStore
      = .ok [[("name".toList, "Ann".toList)]] ∧
    (Joins.handleSQLQuery "SELECT name FROM users WHERE country='India'".toList 1).run annStore
      = .ok []) :=
  ⟨⟨by decide, by decide, by decide⟩, scenario_ann_usa annStore (by decide) (by decide) (by decide)⟩

end DbParser

namespace DbParser
open Go

theorem Joins.run_projectLoop_no_error (s : Store) (key : Str)
    (hok : ∀ field e, s.hget key field ≠ .err e) :
    ∀ (fields : List Str) (acc : Row),
      ∃ row, (Joins.projectLoop key fields acc).run s = .ok row ∧
        ((∀ field ∈ fields, s.hget key field = .nil) → row = acc)
  | [], acc => ⟨acc, rfl, fun _ => rfl⟩
  | field :: rest, acc => by
    simp only [Joins.projectLoop, Prog.run_hget]
    cases h : s.hget key field with
    | err e => exact absurd h (hok field e)
    | nil =>
      obtain ⟨row, hrow, hnil⟩ := Joins.run_projectLoop_no_error s key hok rest acc
      exact ⟨row, hrow, fun hall => hnil (fun f hf => hall f (List.mem_cons_of_mem _ hf))⟩
    | val v =>
      obtain ⟨row, hrow, -⟩ :=
        Joins.run_projectLoop_no_error s key hok rest (GoMap.set acc field v)
      refine ⟨row, hrow, fun hall => ?_⟩
      have := hall field (List.mem_cons_self _ _)
      rw [h] at this
      exact absurd this (by simp)

/-- C12, as amended. For a well-formed non-join query without `WHERE`, a store that raises
no error and a key-space size `N` that `make` accepts (`N ≤ maxSliceLen`), `handleSQLQuery` of
`joins.go` returns one row per key `user:1 .. user:N`, `N` rows in all, whether or not the key
exists: a key with no record (every field absent) contributes an empty row. -/
theorem no_where_row_per_key (s : Store) (query : Str) (N : Nat) (hN : N ≤ maxSliceLen)
    (hSel : HasPrefix (ToUpper (TrimSpace query)) "SELECT".toList = true)
    (hFrom : 7 ≤ Index (TrimSpace query) " FROM ".toList)
    (hJoin : Contains (TrimSpace query) " JOIN ".toList = false)
    (hWhere : Contains (TrimSpace query) "WHERE".toList = false)
    (hok : ∀ key field e, s.hget key field ≠ .err e) :
    ∃ rows, (Joins.handleSQLQuery query (N : Int)).run s = .ok rows ∧ rows.length = N ∧
      ∀ i : Nat, i < N → (∀ field, s.hget (userKey ((i : Int) + 1)) field = .nil) →
        rows[i]? = some [] := by
  obtain ⟨fields, hf⟩ := Joins.extractFields_ok hFrom
  have hidx : Index (TrimSpace query) "WHERE".toList = -1 :=
    Index_eq_neg_one_iff.mpr (Contains_eq_false_iff.mp hWhere)
  have hc : Joins.whereConditions (TrimSpace query) = .ok [] := by
    rw [Joins.whereConditions_ok, if_neg (fun h => h hidx)]
  have hrun := Joins.run_handleSQLQuery_select s query N hSel hJoin [] fields hc hf
  rw [if_pos hN] at hrun
  have hkeys : passingKeys N [] (fun key => (Joins.checkConditions key []).run s)
      = (List.range N).map fun (j : Nat) => userKey ((j : Int) + 1) := by
    unfold passingKeys
    exact List.filter_eq_self.mpr (fun _ _ => by rfl)
  rw [hkeys] at hrun
  obtain ⟨rows, hrows, hlen, hget⟩ := Outcome.sequence_map_ok
    (fun key => (Joins.projectLoop key fields []).run s)
    ((List.range N).map fun (j : Nat) => userKey ((j : Int) + 1))
    (fun key _ => by
      obtain ⟨row, hrow, -⟩ := Joins.run_projectLoop_no_error s key (hok key) fields []
      exact ⟨row, hrow⟩)
  refine ⟨rows, hrun.trans hrows, by simpa using hlen, ?_⟩
  intro i hi hnil
  have hidx : ((List.range N).map fun (j : Nat) => userKey ((j : Int) + 1))[i]?
      = some (userKey ((i : Int) + 1)) := by
    rw [List.getElem?_map, List.getElem?_range hi]
    rfl
  obtain ⟨row, hrow, hproj⟩ := hget i _ hidx
  obtain ⟨row', hrow', hempty⟩ :=
    Joins.run_projectLoop_no_error s (userKey ((i : Int) + 1))
      (hok (userKey ((i : Int) + 1))) fields []
  have heq : row = row' := by
    have h1 := hproj.symm.trans hrow'
    simpa using h1
  rw [hrow, heq, hempty (fun field _ => hnil field)]

/-- Witness of C12: `SELECT name FROM users` over four keys of the three-user store. -/
theorem no_where_row_per_key_witness :
    (4 ≤ maxSliceLen ∧
      HasPrefix (ToUpper (TrimSpace "SELECT name FROM users".toList)) "SELECT".toList = true ∧
      7 ≤ Index (TrimSpace "SELECT name FROM users".toList) " FROM ".toList ∧
      Contains (TrimSpace "SELECT name FROM users".toList) " JOIN ".toList = false ∧
      Contains (TrimSpace "SELECT name FROM users".toList) "WHERE".toList = false ∧
      ∀ key field e, demoStore.hget key field ≠ .err e) ∧
    ∃ rows, (Joins.handleSQLQuery "SELECT name FROM users".toList ((4 : Nat) : Int)).run
        demoStore = .ok rows ∧ rows.length = 4 ∧
      ∀ i : Nat, i < 4 → (∀ field, demoStore.hget (userKey ((i : Int) + 1)) field = .nil) →
        rows[i]? = some [] :=
  ⟨⟨by decide, by decide, by decide, by decide, by decide, demoStore_no_error⟩,
    no_where_row_per_key demoStore "SELECT name FROM users".toList 4 (by decide) (by decide)
      (by decide) (by decide) (by decide) demoStore_no_error⟩

/-- C12 as stated fails. The three-user store has no key `user:4`; `SELECT name FROM users`
over `N = 4` returns four rows, the last one empty, not three. -/
theorem no_where_row_per_key_counterexample :
    demoStore.existsKey (userKey 4) = .count 0 ∧
    demoStore.existsKey (userKey 1) = .count 1 ∧
    demoStore.existsKey (userKey 2) = .count 1 ∧
    demoStore.existsKey (userKey 3) = .count 1 ∧
    (Joins.handleSQLQuery "SELECT name FROM users".toList 4).run demoStore =
      .ok [[("name".toList, "Ann".toList)], [("name".toList, "Bob".toList)],
        [("name".toList, "Cy".toList)], []] := by
  decide

end DbParser

namespace DbParser
namespace GoMap

theorem set_nil {β : Type} (k : Str) (v : β) : GoMap.set ([] : GoMap β) k v = [(k, v)] := rfl

theorem set_cons_self {β : Type} (rest : GoMap β) (k : Str) (v0 v : β) :
    GoMap.set ((k, v0) :: rest) k v = (k, v) :: rest := by
  rw [GoMap.set, if_pos rfl]

theorem set_cons_ne {β : Type} (rest : GoMap β) {k k0 : Str} (v0 v : β) (h : k0 ≠ k) :
    GoMap.set ((k0, v0) :: rest) k v = (k0, v0) :: GoMap.set rest k v := by
  rw [GoMap.set, if_neg h]

theorem get?_nil {β : Type} (k : Str) : GoMap.get? ([] : GoMap β) k = none := rfl

theorem get?_cons_self {β : Type} (rest : GoMap β) (k : Str) (v : β) :
    GoMap.get? ((k, v) :: rest) k = some v := by
  simp only [GoMap.get?, List.lookup, beq_self_eq_true]

theorem get?_cons_ne {β : Type} (rest : GoMap β) {k k0 : Str} (v : β) (h : k ≠ k0) :
    GoMap.get? ((k0, v) :: rest) k = GoMap.get? rest k := by
  have hne : (k == k0) = false := by rw [beq_eq_false_iff_ne]; exact h
  simp only [GoMap.get?, List.lookup, hne]

theorem get?_set_self {β : Type} (m : GoMap β) (k : Str) (v : β) :
    (GoMap.set m k v).get? k = some v := by
  induction m with
  | nil => rw [set_nil, get?_cons_self]
  | cons e rest ih =>
    obtain ⟨k', v'⟩ := e
    by_cases h : k' = k
    · subst h
      rw [set_cons_self, get?_cons_self]
    · rw [set_cons_ne _ _ _ h, get?_cons_ne _ _ (fun hh => h hh.symm)]
      exact ih

theorem get?_set_ne {β : Type} (m : GoMap β) {k k' : Str} (v : β) (hk : k' ≠ k) :
    (GoMap.set m k v).get? k' = m.get? k' := by
  induction m with
  | nil => rw [set_nil, get?_cons_ne _ _ hk]
  | cons e rest ih =>
    obtain ⟨k0, v0⟩ := e
    by_cases h : k0 = k
    · subst h
      rw [set_cons_self, get?_cons_ne _ _ hk, get?_cons_ne _ _ hk]
    · rw [set_cons_ne _ _ _ h]
      by_cases h2 : k' = k0
      · subst h2
        rw [get?_cons_self, get?_cons_self]
      · rw [get?_cons_ne _ _ h2, get?_cons_ne _ _ h2]
        exact ih

theorem mem_keys_set {β : Type} (m : GoMap β) (k k' : Str) (v : β) :
    k' ∈ (GoMap.set m k v).map Prod.fst ↔ k' = k ∨ k' ∈ m.map Prod.fst := by
  induction m with
  | nil => rw [set_nil]; simp only [List.map_cons, List.map_nil, List.mem_singleton,
      List.not_mem_nil, or_false]
  | cons e rest ih =>
    obtain ⟨k0, v0⟩ := e
    by_cases h : k0 = k
    · subst h
      rw [set_cons_self]
      simp only [List.map_cons, List.mem_cons]
      tauto
    · rw [set_cons_ne _ _ _ h]
      simp only [List.map_cons, List.mem_cons, ih]
      tauto

/-- Assignment keeps the keys of a map distinct. -/
theorem nodup_keys_set {β : Type} (m : GoMap β) (k : Str) (v : β)
    (hm : (m.map Prod.fst).Nodup) : ((GoMap.set m k v).map Prod.fst).Nodup := by
  induction m with
  | nil => rw [set_nil]; exact List.nodup_singleton _
  | cons e rest ih =>
    obtain ⟨k0, v0⟩ := e
    rw [List.map_cons, List.nodup_cons] at hm
    by_cases h : k0 = k
    · subst h
      rw [set_cons_self, List.map_cons, List.nodup_cons]
      exact hm
    · rw [set_cons_ne _ _ _ h, List.map_cons, List.nodup_cons, mem_keys_set]
      refine ⟨?_, ih hm.2⟩
      rintro (hh | hh)
      · exact h hh
      · exact hm.1 hh

/-- With distinct keys, a lookup finds exactly the entries of the list. -/
theorem get?_eq_some_iff {β : Type} {m : GoMap β} (hm : (m.map Prod.fst).Nodup) {k : Str}
    {v : β} : m.get? k = some v ↔ (k, v) ∈ m := by
  induction m with
  | nil => rw [get?_nil]; simp only [reduceCtorEq, List.not_mem_nil]
  | cons e rest ih =>
    obtain ⟨k0, v0⟩ := e
    rw [List.map_cons, List.nodup_cons] at hm
    by_cases h : k = k0
    · subst h
      rw [get?_cons_self]
      simp only [Option.some.injEq, List.mem_cons, Prod.mk.injEq, true_and]
      constructor
      · exact fun hh => Or.inl hh.symm
      · rintro (hh | hh)
        · exact hh.symm
        · exact absurd (List.mem_map_of_mem Prod.fst hh) hm.1
    · rw [get?_cons_ne _ _ h]
      simp only [List.mem_cons, Prod.mk.injEq, h, false_and, false_or]
      exact ih hm.2

/-- Two lists of the same entries with distinct keys are the same map. -/
theorem get?_perm {β : Type} {m m' : GoMap β} (hp : m'.Perm m)
    (hm : (m.map Prod.fst).Nodup) (k : Str) : m'.get? k = m.get? k := by
  have hm' : (m'.map Prod.fst).Nodup := (hp.map Prod.fst).nodup_iff.mpr hm
  apply Option.ext
  intro v
  rw [Option.mem_def, Option.mem_def, get?_eq_some_iff hm', get?_eq_some_iff hm]
  exact hp.mem_iff

/-- Copying the entries of `l` into `acc`: an entry of `l` wins over `acc`. -/
theorem get?_foldl_set {β : Type} (l : GoMap β) (hl : (l.map Prod.fst).Nodup) (k : Str) :
    ∀ acc : GoMap β,
      (l.foldl (fun acc kv => GoMap.set acc kv.1 kv.2) acc).get? k
        = (l.get? k).or (acc.get? k) := by
  induction l with
  | nil => intro acc; rfl
  | cons e rest ih =>
    intro acc
    obtain ⟨k0, v0⟩ := e
    rw [List.map_cons, List.nodup_cons] at hl
    rw [List.foldl_cons, ih hl.2]
    by_cases h : k = k0
    · subst h
      have hnone : get? rest k = none := by
        cases hr : get? rest k with
        | none => rfl
        | some v =>
          exact absurd (List.mem_map_of_mem Prod.fst ((get?_eq_some_iff hl.2).mp hr)) hl.1
      rw [hnone, get?_set_self, get?_cons_self]
      rfl
    · rw [get?_set_ne _ _ h, get?_cons_ne _ _ h]

end GoMap
end DbParser

namespace DbParser
open Go

theorem all_perm {α : Type} {l l' : List α} (hp : l'.Perm l) (p : α → Bool) :
    l'.all p = l.all p := by
  rw [Bool.eq_iff_iff, List.all_eq_true, List.all_eq_true]
  exact ⟨fun h x hx => h x (hp.mem_iff.mpr hx), fun h x hx => h x (hp.mem_iff.mp hx)⟩

theorem Joins.run_checkConditions_perm (s : Store) (key : Str) {conds conds' : GoMap Cond}
    (hp : conds'.Perm conds) :
    (Joins.checkConditions key conds').run s = (Joins.checkConditions key conds).run s := by
  rw [Joins.run_checkConditions, Joins.run_checkConditions, all_perm hp]

theorem NestedJson.run_checkConditions_perm_nj (json : NestedJson.Unmarshal) (s : Store)
    (key : Str) {conds conds' : GoMap Cond} (hp : conds'.Perm conds) :
    (NestedJson.checkConditions json key conds').run s
      = (NestedJson.checkConditions json key conds).run s := by
  rw [NestedJson.run_checkConditions_nj, NestedJson.run_checkConditions_nj, all_perm hp]

theorem Joins.run_selectLoopVisiting (s : Store) (visit : Str → GoMap Cond → GoMap Cond)
    (hvisit : ∀ key m, (visit key m).Perm m) (query : Str) (conds : GoMap Cond) :
    ∀ (keys : List Str) (acc : List Row),
      (Joins.selectLoopVisiting visit query conds keys acc).run s
        = (Joins.selectLoop query conds keys acc).run s
  | [], acc => rfl
  | key :: keys, acc => by
    have ih := Joins.run_selectLoopVisiting s visit hvisit query conds keys
    simp only [Joins.selectLoopVisiting, Joins.selectLoop]
    split
    · simp only [Prog.run_seq, apply_ite (Prog.run s), ih,
        Joins.run_checkConditions_perm s key (hvisit key conds)]
    · simp only [Prog.run_seq, apply_ite (Prog.run s), ih]

theorem NestedJson.run_selectLoopVisiting_nj (json : NestedJson.Unmarshal) (s : Store)
    (visit : Str → GoMap Cond → GoMap Cond)
    (hvisit : ∀ key m, (visit key m).Perm m) (query : Str) (conds : GoMap Cond) :
    ∀ (keys : List Str) (acc : List Row),
      (NestedJson.selectLoopVisiting json visit query conds keys acc).run s
        = (NestedJson.selectLoop json query conds keys acc).run s
  | [], acc => rfl
  | key :: keys, acc => by
    have ih := NestedJson.run_selectLoopVisiting_nj json s visit hvisit query conds keys
    simp only [NestedJson.selectLoopVisiting, NestedJson.selectLoop]
    split
    · simp only [Prog.run_seq, apply_ite (Prog.run s), ih,
        NestedJson.run_checkConditions_perm_nj json s key (hvisit key conds)]
    · simp only [Prog.run_seq, apply_ite (Prog.run s), ih]

theorem Joins.get?_combine (mainResult joinResult : Row)
    (hm : (mainResult.map Prod.fst).Nodup) (hj : (joinResult.map Prod.fst).Nodup) (k : Str) :
    (Joins.combine mainResult joinResult).get? k
      = (joinResult.get? k).or (mainResult.get? k) := by
  unfold Joins.combine
  rw [GoMap.get?_foldl_set joinResult hj, GoMap.get?_foldl_set mainResult hm]
  rw [GoMap.get?_nil]
  cases GoMap.get? mainResult k <;> rfl

/-- C13. The outcome of `handleSQLQuery` (`joins.go`, `nestedJson.go`) does not depend on the
order in which Go visits the entries of a map.  Whatever order `visit` each call of
`checkConditions` visits the condition map in, its verdict is the one reached in list order,
and so is the outcome of the whole query, row sequence included; and the row merged by
`handleJoinQuery` holds the same entries whatever order the two rows are copied in.  The
outcome is therefore a function of the query, the store and `N` only. -/
theorem visiting_order_irrelevant (s : Store) (json : NestedJson.Unmarshal)
    (visit : Str → GoMap Cond → GoMap Cond) (hvisit : ∀ key m, (visit key m).Perm m)
    (query : Str) (N : Int) :
    (∀ key conds, (Joins.checkConditions key (visit key conds)).run s
      = (Joins.checkConditions key conds).run s) ∧
    (∀ key conds, (NestedJson.checkConditions json key (visit key conds)).run s
      = (NestedJson.checkConditions json key conds).run s) ∧
    (Joins.handleSQLQueryVisiting visit query N).run s = (Joins.handleSQLQuery query N).run s ∧
    (NestedJson.handleSQLQueryVisiting json visit query N).run s
      = (NestedJson.handleSQLQuery json query N).run s ∧
    (∀ m m' j j' : Row, m'.Perm m → j'.Perm j →
      (m.map Prod.fst).Nodup → (j.map Prod.fst).Nodup →
      ∀ k, (Joins.combine m' j').get? k = (Joins.combine m j).get? k) := by
  refine ⟨fun key conds => Joins.run_checkConditions_perm s key (hvisit key conds),
    fun key conds => NestedJson.run_checkConditions_perm_nj json s key (hvisit key conds),
    ?_, ?_, ?_⟩
  · simp only [Joins.handleSQLQueryVisiting, Joins.handleSQLQuery]
    split
    · split
      · rfl
      · simp only [Prog.run_seq, Joins.run_selectLoopVisiting s visit hvisit]
    · rfl
  · simp only [NestedJson.handleSQLQueryVisiting, NestedJson.handleSQLQuery]
    split
    · simp only [Prog.run_seq, NestedJson.run_selectLoopVisiting_nj json s visit hvisit]
    · rfl
  · intro m m' j j' hpm hpj hm hj k
    have hm' : (m'.map Prod.fst).Nodup := (hpm.map Prod.fst).nodup_iff.mpr hm
    have hj' : (j'.map Prod.fst).Nodup := (hpj.map Prod.fst).nodup_iff.mpr hj
    rw [Joins.get?_combine m' j' hm' hj', Joins.get?_combine m j hm hj,
      GoMap.get?_perm hpm hm, GoMap.get?_perm hpj hj]

/-- Witness of C13: the entries visited in reverse order, on the three-user store. -/
theorem visiting_order_irrelevant_witness :
    (∀ (key : Str) (m : GoMap Cond), ((fun _ m => m.reverse) key m : GoMap Cond).Perm m) ∧
    ((∀ key conds, (Joins.checkConditions key ((fun _ m => m.reverse) key conds)).run demoStore
      = (Joins.checkConditions key conds).run demoStore) ∧
    (∀ key conds, (NestedJson.checkConditions Json.jsonStringMap key
        ((fun _ m => m.reverse) key conds)).run demoStore
      = (NestedJson.checkConditions Json.jsonStringMap key conds).run demoStore) ∧
    (Joins.handleSQLQueryVisiting (fun _ m => m.reverse)
        "SELECT name FROM users WHERE age > 25 AND country='USA'".toList 3).run demoStore
      = (Joins.handleSQLQuery
        "SELECT name FROM users WHERE age > 25 AND country='USA'".toList 3).run demoStore ∧
    (NestedJson.handleSQLQueryVisiting Json.jsonStringMap (fun _ m => m.reverse)
        "SELECT name FROM users WHERE age > 25 AND country='USA'".toList 3).run demoStore
      = (NestedJson.handleSQLQuery Json.jsonStringMap
        "SELECT name FROM users WHERE age > 25 AND country='USA'".toList 3).run demoStore ∧
    (∀ m m' j j' : Row, m'.Perm m → j'.Perm j →
      (m.map Prod.fst).Nodup → (j.map Prod.fst).Nodup →
      ∀ k, (Joins.combine m' j').get? k = (Joins.combine m j).get? k)) :=
  ⟨fun _ m => List.reverse_perm m,
    visiting_order_irrelevant demoStore Json.jsonStringMap (fun _ m => m.reverse)
      (fun _ m => List.reverse_perm m)
      "SELECT name FROM users WHERE age > 25 AND country='USA'".toList 3⟩

end DbParser

namespace DbParser
open Go

theorem Joins.entryHolds_eq_predicatePasses (s : Store) (key : Str) (e : Str × Cond) :
    Joins.entryHolds s key e = predicatePasses (s.hget key e.1) e.2 := by
  obtain ⟨field, c⟩ := e
  cases c with
  | str v =>
    rw [Joins.entryHolds_str]
    cases h : s.hget key field with
    | val a =>
      simp only [predicatePasses]
      by_cases hav : a = v
      · subst hav
        simp
      · have : (Reply.val a == Reply.val v) = false := by
          rw [beq_eq_false_iff_ne]
          exact fun hh => hav (Reply.val.inj hh)
        simp [this, hav]
    | nil => rfl
    | err e => rfl
  | int t =>
    rw [Joins.entryHolds_int]
    unfold storedGreater
    cases h : s.hget key field <;> simp [predicatePasses]

/-- C14. For every record key and every condition map, `checkConditions` of `joins.go` returns
(it never fails), and it returns true if and only if every entry passes: a string predicate
iff the field is present and its value equals the string, an integer predicate iff the field
is present, its value parses as an integer and that integer is strictly greater than the
threshold.  A missing field makes the verdict false. -/
theorem checkConditions_iff (s : Store) (key : Str) (conds : GoMap Cond) :
    ∃ verdict, (Joins.checkConditions key conds).run s = .ok verdict ∧
      (verdict = true ↔ ∀ e ∈ conds, predicatePasses (s.hget key e.1) e.2 = true) ∧
      ((∃ e ∈ conds, s.hget key e.1 = .nil) → verdict = false) := by
  refine ⟨conds.all (Joins.entryHolds s key), Joins.run_checkConditions s key conds, ?_, ?_⟩
  · rw [List.all_eq_true]
    constructor
    · intro h e he
      rw [← Joins.entryHolds_eq_predicatePasses]
      exact h e he
    · intro h e he
      rw [Joins.entryHolds_eq_predicatePasses]
      exact h e he
  · rintro ⟨e, he, hnil⟩
    rw [Bool.eq_false_iff]
    intro hall
    have := (List.all_eq_true.mp hall) e he
    rw [Joins.entryHolds_eq_predicatePasses, hnil] at this
    cases e.2 <;> simp [predicatePasses] at this

end DbParser

namespace DbParser
open Go

theorem NestedJson.parseWhereClause_eq_joins :
    NestedJson.parseWhereClause = Joins.parseWhereClause := rfl

/-- The parser is its loop body folded over the conjuncts. -/
theorem Joins.parseWhereClause_eq_foldl (w : Str) :
    Joins.parseWhereClause w = (conjuncts w).foldl parseConjunct [] := by
  unfold Joins.parseWhereClause conjuncts
  simp only
  congr 1
  funext conds c
  unfold parseConjunct conjunctEntry
  simp only
  by_cases hgt : Contains (TrimSpace c) ">".toList = true
  · simp only [hgt, if_true]
    generalize Split (TrimSpace c) ">".toList = parts
    rcases parts with _ | ⟨a, _ | ⟨b, _ | ⟨d, t⟩⟩⟩
    · rfl
    · rfl
    · simp only
      generalize Atoi (TrimSpace b) = r
      cases r <;> rfl
    · rfl
  · simp only [hgt, Bool.false_eq_true, if_false]
    generalize Split (TrimSpace c) "=".toList = parts
    rcases parts with _ | ⟨a, _ | ⟨b, _ | ⟨d, t⟩⟩⟩ <;> rfl

theorem parseConjunct_foldl_get? (f : Str) :
    ∀ (post : List Str) (acc : GoMap Cond),
      (∀ c ∈ post, ∀ p, conjunctEntry c ≠ some (f, p)) →
      (post.foldl parseConjunct acc).get? f = acc.get? f
  | [], _, _ => rfl
  | c :: post, acc, h => by
    rw [List.foldl_cons,
      parseConjunct_foldl_get? f post _ (fun c' hc' => h c' (List.mem_cons_of_mem _ hc'))]
    unfold parseConjunct
    cases he : conjunctEntry c with
    | none => rfl
    | some e =>
      simp only
      apply GoMap.get?_set_ne
      intro hf
      apply h c (List.mem_cons_self _ _) e.2
      rw [he, hf]

theorem parseConjunct_foldl_nodup :
    ∀ (cs : List Str) (acc : GoMap Cond), (acc.map Prod.fst).Nodup →
      ((cs.foldl parseConjunct acc).map Prod.fst).Nodup
  | [], _, h => h
  | c :: cs, acc, h => by
    rw [List.foldl_cons]
    apply parseConjunct_foldl_nodup cs
    unfold parseConjunct
    cases conjunctEntry c with
    | none => exact h
    | some e => exact GoMap.nodup_keys_set _ _ _ h

/-- What a conjunct of the shape `f > s` contributes. -/
theorem conjunctEntry_greater {c p0 p1 : Str} (hc : TrimSpace c = p0 ++ '>' :: p1)
    (hp0 : '>' ∉ p0) (hp1 : '>' ∉ p1) :
    conjunctEntry c = (Atoi (TrimSpace p1)).map fun v => (TrimSpace p0, Cond.int v) := by
  have hcont : Contains (p0 ++ '>' :: p1) ">".toList = true := by
    rw [show ">".toList = ['>'] from rfl, Contains_singleton]
    simp
  have hsplit : Split (p0 ++ '>' :: p1) ">".toList = [p0, p1] := by
    rw [show ">".toList = ['>'] from rfl]
    exact Split_singleton_sep hp0 hp1
  unfold conjunctEntry
  simp only [hc, hcont, if_true, hsplit]
  cases Atoi (TrimSpace p1) <;> rfl

end DbParser

namespace DbParser
open Go

/-- C15. Let a conjunct of a WHERE clause, once trimmed, have the shape `f > s` with exactly
one `>`.  When the trimmed `s` parses as an integer `v` (`strconv.Atoi`), `parseWhereClause`
(`joins.go`, `nestedJson.go`) assigns `v` to the trimmed `f` at that point of the loop; when it
does not parse, the conjunct contributes nothing and no error is reported: the result is that
of the clause without the conjunct, the entries of the other conjuncts unchanged. -/
theorem greater_conjunct_parsed (w : Str) (pre post : List Str) (c p0 p1 : Str)
    (hsplit : conjuncts w = pre ++ c :: post)
    (hc : TrimSpace c = p0 ++ '>' :: p1) (hp0 : '>' ∉ p0) (hp1 : '>' ∉ p1) :
    (∀ v, Atoi (TrimSpace p1) = some v →
      Joins.parseWhereClause w =
        post.foldl parseConjunct ((pre.foldl parseConjunct []).set (TrimSpace p0) (.int v)) ∧
      NestedJson.parseWhereClause w =
        post.foldl parseConjunct ((pre.foldl parseConjunct []).set (TrimSpace p0) (.int v)) ∧
      ((pre.foldl parseConjunct []).set (TrimSpace p0) (.int v)).get? (TrimSpace p0)
        = some (.int v)) ∧
    (Atoi (TrimSpace p1) = none →
      Joins.parseWhereClause w = (pre ++ post).foldl parseConjunct [] ∧
      NestedJson.parseWhereClause w = (pre ++ post).foldl parseConjunct []) := by
  have hentry := conjunctEntry_greater hc hp0 hp1
  have hfold : Joins.parseWhereClause w
      = post.foldl parseConjunct (parseConjunct (pre.foldl parseConjunct []) c) := by
    rw [Joins.parseWhereClause_eq_foldl, hsplit, List.foldl_append, List.foldl_cons]
  constructor
  · intro v hv
    have hstep : parseConjunct (pre.foldl parseConjunct []) c
        = (pre.foldl parseConjunct []).set (TrimSpace p0) (.int v) := by
      unfold parseConjunct
      rw [hentry, hv]
      rfl
    rw [NestedJson.parseWhereClause_eq_joins, hfold, hstep]
    exact ⟨rfl, rfl, GoMap.get?_set_self _ _ _⟩
  · intro hnone
    have hstep : parseConjunct (pre.foldl parseConjunct []) c = pre.foldl parseConjunct [] := by
      unfold parseConjunct
      rw [hentry, hnone]
      rfl
    rw [NestedJson.parseWhereClause_eq_joins, hfold, hstep, List.foldl_append]
    exact ⟨rfl, rfl⟩

/-- Witness of C15: the conjunct `age > 25` of `WHERE age > 25 AND country='USA'`. -/
theorem greater_conjunct_parsed_witness :
    (conjuncts "WHERE age > 25 AND country='USA'".toList
        = [] ++ "age > 25 ".toList :: [" country='USA'".toList] ∧
      TrimSpace "age > 25 ".toList = "age ".toList ++ '>' :: " 25".toList ∧
      '>' ∉ "age ".toList ∧ '>' ∉ " 25".toList) ∧
    ((∀ v, Atoi (TrimSpace " 25".toList) = some v →
      Joins.parseWhereClause "WHERE age > 25 AND country='USA'".toList =
        [" country='USA'".toList].foldl parseConjunct
          ((([] : List Str).foldl parseConjunct []).set (TrimSpace "age ".toList) (.int v)) ∧
      NestedJson.parseWhereClause "WHERE age > 25 AND country='USA'".toList =
        [" country='USA'".toList].foldl parseConjunct
          ((([] : List Str).foldl parseConjunct []).set (TrimSpace "age ".toList) (.int v)) ∧
      ((([] : List Str).foldl parseConjunct []).set (TrimSpace "age ".toList)
          (.int v)).get? (TrimSpace "age ".toList) = some (.int v)) ∧
    (Atoi (TrimSpace " 25".toList) = none →
      Joins.parseWhereClause "WHERE age > 25 AND country='USA'".toList =
        ([] ++ [" country='USA'".toList]).foldl parseConjunct [] ∧
      NestedJson.parseWhereClause "WHERE age > 25 AND country='USA'".toList =
        ([] ++ [" country='USA'".toList]).foldl parseConjunct [])) ∧
    Joins.parseWhereClause "WHERE age > 25 AND country='USA'".toList
      = [("age".toList, .int 25), ("country".toList, .str "USA".toList)] ∧
    Joins.parseWhereClause "WHERE age > 2x5 AND country='USA'".toList
      = [("country".toList, .str "USA".toList)] :=
  ⟨⟨by decide, by decide, by decide, by decide⟩,
    greater_conjunct_parsed "WHERE age > 25 AND country='USA'".toList []
      [" country='USA'".toList] "age > 25 ".toList "age ".toList " 25".toList
      (by decide) (by decide) (by decide) (by decide),
    by decide, by decide⟩

/-- C17. The result of `parseWhereClause` (`joins.go`, `nestedJson.go`) holds at most one
predicate per field name: its keys are distinct.  When a conjunct contributes a predicate `p`
for the field `f` and no later conjunct contributes one for `f`, the predicate stored for `f`
is `p`, whether equality or greater-than: the last conjunct naming a field wins. -/
theorem last_conjunct_wins (w : Str) (pre post : List Str) (c f : Str) (p : Cond)
    (hsplit : conjuncts w = pre ++ c :: post)
    (hentry : conjunctEntry c = some (f, p))
    (hlast : ∀ c' ∈ post, ∀ p', conjunctEntry c' ≠ some (f, p')) :
    (∀ w', ((Joins.parseWhereClause w').map Prod.fst).Nodup ∧
      ((NestedJson.parseWhereClause w').map Prod.fst).Nodup) ∧
    (Joins.parseWhereClause w).get? f = some p ∧
    (NestedJson.parseWhereClause w).get? f = some p := by
  have hnodup : ∀ w', ((Joins.parseWhereClause w').map Prod.fst).Nodup := by
    intro w'
    rw [Joins.parseWhereClause_eq_foldl]
    exact parseConjunct_foldl_nodup _ [] List.nodup_nil
  have hget : (Joins.parseWhereClause w).get? f = some p := by
    rw [Joins.parseWhereClause_eq_foldl, hsplit, List.foldl_append, List.foldl_cons,
      parseConjunct_foldl_get? f post _ hlast]
    unfold parseConjunct
    rw [hentry]
    exact GoMap.get?_set_self _ _ _
  refine ⟨fun w' => ⟨hnodup w', ?_⟩, hget, ?_⟩
  · rw [NestedJson.parseWhereClause_eq_joins]
    exact hnodup w'
  · rw [NestedJson.parseWhereClause_eq_joins]
    exact hget

/-- Witness of C17: in `WHERE age > 25 AND country='USA' AND age > 30 AND country='India'` the
field `age` is named by the first and the third conjunct; the third one, the last for `age`,
is stored. -/
theorem last_conjunct_wins_witness :
    (conjuncts "WHERE age > 25 AND country='USA' AND age > 30 AND country='India'".toList
        = ["age > 25 ".toList, " country='USA' ".toList] ++ " age > 30 ".toList ::
          [" country='India'".toList] ∧
      conjunctEntry " age > 30 ".toList = some ("age".toList, .int 30) ∧
      ∀ c' ∈ [" country='India'".toList], ∀ p', conjunctEntry c' ≠ some ("age".toList, p')) ∧
    ((∀ w', ((Joins.parseWhereClause w').map Prod.fst).Nodup ∧
      ((NestedJson.parseWhereClause w').map Prod.fst).Nodup) ∧
    (Joins.parseWhereClause
      "WHERE age > 25 AND country='USA' AND age > 30 AND country='India'".toList).get?
        "age".toList = some (.int 30) ∧
    (NestedJson.parseWhereClause
      "WHERE age > 25 AND country='USA' AND age > 30 AND country='India'".toList).get?
        "age".toList = some (.int 30)) ∧
    Joins.parseWhereClause
      "WHERE age > 25 AND country='USA' AND age > 30 AND country='India'".toList
      = [("age".toList, .int 30), ("country".toList, .str "India".toList)] :=
  have hlast : ∀ c' ∈ [" country='India'".toList], ∀ p',
      conjunctEntry c' ≠ some ("age".toList, p') := by
    intro c' hc' p' h
    rw [List.mem_singleton] at hc'
    subst hc'
    rw [show conjunctEntry " country='India'".toList
      = some ("country".toList, .str "India".toList) by decide] at h
    simp only [Option.some.injEq, Prod.mk.injEq] at h
    exact absurd h.1 (by decide)
  ⟨⟨by decide, by decide, hlast⟩,
    last_conjunct_wins
      "WHERE age > 25 AND country='USA' AND age > 30 AND country='India'".toList
      ["age > 25 ".toList, " country='USA' ".toList] [" country='India'".toList]
      " age > 30 ".toList "age".toList (.int 30) (by decide) (by decide) hlast,
    by decide⟩

end DbParser

namespace DbParser
open Go

/-- C16 (evaluation at the failing input). With white space after the `=`, the value part
` 'USA'` begins with a blank, so `strings.Trim(parts[1], "'")` removes the closing quote only
and `TrimSpace` then leaves `'USA` with its opening quote: all three parsers map `country` to
`'USA`, and the record whose `country` is `USA` is no longer selected.  Without white space
after the `=` (none or some before it) the value is `USA`. -/
theorem space_after_equals_keeps_quote :
    Complex.parseWhereClause "WHERE country = 'USA'".toList
      = [("country".toList, "'USA".toList)] ∧
    Joins.parseWhereClause "WHERE country = 'USA'".toList
      = [("country".toList, .str "'USA".toList)] ∧
    NestedJson.parseWhereClause "WHERE country = 'USA'".toList
      = [("country".toList, .str "'USA".toList)] ∧
    Joins.parseWhereClause "WHERE country='USA'".toList
      = [("country".toList, .str "USA".toList)] ∧
    Joins.parseWhereClause "WHERE country  ='USA'".toList
      = [("country".toList, .str "USA".toList)] ∧
    (Joins.handleSQLQuery "SELECT name FROM users WHERE country = 'USA'".toList 1).run annStore
      = .ok [] ∧
    (Joins.handleSQLQuery "SELECT name FROM users WHERE country='USA'".toList 1).run annStore
      = .ok [[("name".toList, "Ann".toList)]] := by
  decide

/-- C18 (evaluation at the failing input). The record `user:1` has no literal field
`address.city` and its `address` decodes to `city: Paris`; `checkConditions` of `nestedJson.go`
returns false on the condition `address.city = Paris`, because the first `HGET` of the dotted
field fails and the function returns before its nested-field block.  The record is excluded
by `... WHERE address.city='Paris'`, although the projection of `address.city` resolves to
`Paris`. -/
theorem nested_condition_never_resolved :
    demoStore.hget (userKey 1) "address.city".toList = .nil ∧
    (Json.jsonStringMap "\x7b\"city\":\"Paris\"\x7d".toList).get? "city".toList
      = some "Paris".toList ∧
    demoStore.hget (userKey 1) "address".toList = .val "\x7b\"city\":\"Paris\"\x7d".toList ∧
    (NestedJson.checkConditions Json.jsonStringMap (userKey 1)
      [("address.city".toList, .str "Paris".toList)]).run demoStore = .ok false ∧
    (NestedJson.handleSQLQuery Json.jsonStringMap
      "SELECT name FROM t WHERE address.city='Paris'".toList 1).run demoStore = .ok [] ∧
    (NestedJson.handleSQLQuery Json.jsonStringMap
      "SELECT address.city FROM t".toList 1).run demoStore
      = .ok [[("address.city".toList, "Paris".toList)]] := by
  decide

/-- C20 (evaluation at the failing input). The join query that `main` of `joins.go` issues is
split at ` JOIN `; its second segment `user_profile ON user.id = user_profile.id` holds no
` FROM `, so `extractFields` evaluates `query[7:-1]` and panics, for every store and every
`N`. -/
theorem main_join_query_panics (s : Store) (N : Int) :
    Joins.mainQuery =
      ("SELECT email, bio FROM keydb WHERE age > 25 AND country='India' JOIN " ++
        "user_profile ON user.id = user_profile.id").toList ∧
    Split Joins.mainQuery " JOIN ".toList
      = ["SELECT email, bio FROM keydb WHERE age > 25 AND country='India'".toList,
        "user_profile ON user.id = user_profile.id".toList] ∧
    Joins.extractFields "user_profile ON user.id = user_profile.id".toList
      = .panic .sliceBounds ∧
    (Joins.handleSQLQuery Joins.mainQuery N).run s = .panic .sliceBounds := by
  have hq : TrimSpace Joins.mainQuery = Joins.mainQuery := by decide
  have hsel : HasPrefix (ToUpper Joins.mainQuery) "SELECT".toList = true := by decide
  have hsplit : Split Joins.mainQuery " JOIN ".toList
      = ["SELECT email, bio FROM keydb WHERE age > 25 AND country='India'".toList,
        "user_profile ON user.id = user_profile.id".toList] := by decide
  have h1 : Joins.extractFields
      "SELECT email, bio FROM keydb WHERE age > 25 AND country='India'".toList
      = .ok ["email".toList, " bio".toList] := by decide
  have h2 : Joins.extractFields "user_profile ON user.id = user_profile.id".toList
      = .panic .sliceBounds := by decide
  have h : Joins.handleSQLQuery Joins.mainQuery N = Prog.done (.panic .sliceBounds) := by
    simp only [Joins.handleSQLQuery, hq, hsel, if_true, hsplit, List.length_cons,
      List.length_nil, Joins.handleJoinQuery, h1, h2]
    rfl
  refine ⟨by decide, hsplit, h2, ?_⟩
  rw [h]
  rfl

end DbParser

namespace DbParser
open Go

/-- An occurrence of a string does not start inside a part that lacks its first character. -/
theorem Go.infix_append_of_head_not_mem {h : Char} {w a r : Str} (hh : h ∉ a) :
    (h :: w) <:+: a ++ r → (h :: w) <:+: r := by
  induction a with
  | nil => exact fun hi => hi
  | cons x a ih =>
    intro hi
    rw [List.cons_append, List.infix_cons_iff] at hi
    rcases hi with hp | hi
    · exfalso
      obtain ⟨t, ht⟩ := hp
      rw [List.cons_append, List.cons.injEq] at ht
      exact hh (ht.1 ▸ List.mem_cons_self _ _)
    · exact ih (fun hm => hh (List.mem_cons_of_mem _ hm)) hi

/-- A child name without `WHERE` leaves the query `SELECT address.c FROM t` without a
condition. -/
theorem addressChildQuery_no_where {c : Str} (hW : Contains c "WHERE".toList = false) :
    NestedJson.whereConditions (addressChildQuery c) = .ok [] := by
  have hcont : Contains (addressChildQuery c) "WHERE".toList = false := by
    rw [show addressChildQuery c = "SELECT".toList ++ ' ' :: ("address".toList ++ '.' ::
        (c ++ ' ' :: ("FROM".toList ++ ' ' :: "t".toList))) by simp [addressChildQuery],
      Contains_append_cons (by decide), Contains_append_cons (by decide),
      Contains_append_cons (by decide), Contains_append_cons (by decide), hW]
    decide
  rw [NestedJson.whereConditions_ok_nj,
    if_neg (fun h => h (Index_eq_neg_one_iff.mpr (Contains_eq_false_iff.mp hcont)))]

theorem addressChildQuery_parts {c : Str}
    (htrim : TrimSpace ("address.".toList ++ c) = "address.".toList ++ c)
    (hFrom : Contains (c ++ " FROM".toList) " FROM ".toList = false)
    (hcomma : ',' ∉ c) :
    TrimSpace (addressChildQuery c) = addressChildQuery c ∧
    HasPrefix (ToUpper (addressChildQuery c)) "SELECT".toList = true ∧
    NestedJson.extractFields (addressChildQuery c) = .ok ["address.".toList ++ c] := by
  refine ⟨?_, ?_, ?_⟩
  · apply trim_of_ends
    · intro a ha
      simp only [addressChildQuery, String.toList, List.cons_append, List.append_assoc,
        List.head?_cons, Option.mem_def, Option.some.injEq] at ha
      subst ha
      decide
    · intro b hb
      unfold addressChildQuery at hb
      rw [List.getLast?_append_of_ne_nil _ (by decide)] at hb
      have : b = 't' := by
        have h2 : (" FROM t".toList).getLast? = some 't' := by decide
        rw [h2] at hb
        simpa using hb.symm
      subst this
      decide
  · simp [addressChildQuery, HasPrefix, ToUpper]
  · have hnot : ¬ " FROM ".toList <:+: "SELECT address.".toList ++ c ++ " FROM".toList := by
      intro hi
      rw [show "SELECT address.".toList ++ c ++ " FROM".toList
        = "SELECT".toList ++ (' ' :: ("address.".toList ++ c ++ " FROM".toList)) by simp] at hi
      have hi2 := infix_append_of_head_not_mem (by decide) hi
      rw [List.infix_cons_iff] at hi2
      rcases hi2 with hp | hi3
      · obtain ⟨t, ht⟩ := hp
        simp at ht
      · rw [List.append_assoc] at hi3
        have hi4 := infix_append_of_head_not_mem (a := "address.".toList) (by decide) hi3
        exact Contains_eq_false_iff.mp hFrom hi4
    have hidx : Index (addressChildQuery c) " FROM ".toList
        = (("SELECT address.".toList ++ c).length : Int) := by
      rw [show addressChildQuery c
        = ("SELECT address.".toList ++ c) ++ (" FROM ".toList ++ "t".toList) by
          simp [addressChildQuery]]
      apply Index_append_self
      rw [Contains_eq_false_iff]
      exact hnot
    unfold NestedJson.extractFields
    simp only [hidx]
    rw [slice_eq_some (by simp) (by simp; omega) (by simp [addressChildQuery])]
    have hsub : ((addressChildQuery c).drop (("SELECT ".toList.length : Nat) : Int).toNat).take
        ((("SELECT address.".toList ++ c).length : Int).toNat
          - (("SELECT ".toList.length : Nat) : Int).toNat)
        = "address.".toList ++ c := by
      simp only [Int.toNat_ofNat]
      rw [show addressChildQuery c
        = "SELECT ".toList ++ (("address.".toList ++ c) ++ " FROM t".toList) by
          simp [addressChildQuery], List.drop_left]
      have : ("SELECT address.".toList ++ c).length - "SELECT ".toList.length
          = ("address.".toList ++ c).length := by
        simp
      rw [this, List.take_left]
    rw [hsub]
    have hsplit : Split ("address.".toList ++ c) ",".toList = ["address.".toList ++ c] := by
      apply Split_of_not_infix (by decide)
      rw [← Contains_eq_false_iff, show ",".toList = [','] from rfl, Contains_singleton]
      simp [hcomma]
    simp only [htrim, hsplit]

end DbParser

namespace DbParser
open Go

theorem NestedJson.run_projectLoop_dotted (json : Unmarshal) (s : Store) (key field child : Str)
    (hdot : Contains field ".".toList = true)
    (hsplit : ∃ parent rest, Split field ".".toList = parent :: child :: rest)
    (hne : ∀ e, s.hget key field ≠ .err e) :
    ∃ row, (NestedJson.projectLoop json key [field] []).run s = .ok row ∧
      ∀ a w, s.hget key field = .nil →
        s.hget key "address".toList = .val a →
        (json a).get? child = some w →
        row.get? field = some w := by
  obtain ⟨parent, rest, hsp⟩ := hsplit
  simp only [NestedJson.projectLoop, Prog.run_hget]
  cases h : s.hget key field with
  | err e => exact absurd h (hne e)
  | val v =>
    refine ⟨_, rfl, ?_⟩
    intro a w hnil
    simp at hnil
  | nil =>
    simp only [hdot, if_true, hsp, Prog.run_hget]
    cases h2 : s.hget key "address".toList with
    | val j =>
      refine ⟨_, rfl, ?_⟩
      intro a w _ ha hw
      simp only [Reply.val.injEq] at ha
      subst ha
      simp only [GoMap.get?] at hw
      have hv : (json j).getD child = w := by
        simp only [GoMap.getD, hw, Option.getD_some]
      rw [hv]
      exact GoMap.get?_set_self _ _ _
    | nil =>
      refine ⟨_, rfl, ?_⟩
      intro a w _ ha
      simp at ha
    | err e =>
      refine ⟨_, rfl, ?_⟩
      intro a w _ ha
      simp at ha

/-- C19, as amended. Let the child name `c` hold no `.` and no `,`, let the field name
`address.c` not end in white space (`strings.TrimSpace` leaves it as it is), let the first
` FROM ` of the query be the one after the field (`c` followed by ` FROM` holds no ` FROM `),
and let the query yield no condition (its condition map is empty, as it is when `c` holds no
`WHERE`).  For `SELECT address.c FROM t` in `nestedJson.go`, with a key-space size `N` that
`make` accepts (`N ≤ maxSliceLen`), over a store whose reads of the field `address.c` raise no
error on the keys `user:1 .. user:N`: the query returns `N` rows, and for every record `user:i`
that has no literal field `address.c` and whose `address` field decodes to a map sending `c`
to `w`, the `i`-th row maps `address.c` to `w`.  The fallback decodes the field named
`address`. -/
theorem nested_address_child_resolved (json : NestedJson.Unmarshal) (s : Store) (N i : Nat)
    (c a w : Str)
    (htrim : TrimSpace ("address.".toList ++ c) = "address.".toList ++ c)
    (hFrom : Contains (c ++ " FROM".toList) " FROM ".toList = false)
    (hdotc : '.' ∉ c) (hcomma : ',' ∉ c)
    (hW : NestedJson.whereConditions (addressChildQuery c) = .ok [])
    (hN : N ≤ maxSliceLen) (hi : 1 ≤ i ∧ i ≤ N)
    (hok : ∀ j : Nat, 1 ≤ j → j ≤ N → ∀ e,
      s.hget (userKey (j : Int)) ("address.".toList ++ c) ≠ .err e)
    (hlit : s.hget (userKey (i : Int)) ("address.".toList ++ c) = .nil)
    (haddr : s.hget (userKey (i : Int)) "address".toList = .val a)
    (hchild : (json a).get? c = some w) :
    ∃ rows row,
      (NestedJson.handleSQLQuery json (addressChildQuery c) (N : Int)).run s = .ok rows ∧
      rows.length = N ∧ rows[i - 1]? = some row ∧
      row.get? ("address.".toList ++ c) = some w := by
  obtain ⟨hTrim, hSel, hfields⟩ := addressChildQuery_parts htrim hFrom hcomma
  have hconds := hW
  have hdot : Contains ("address.".toList ++ c) ".".toList = true := by
    rw [show ".".toList = ['.'] from rfl, Contains_singleton]
    simp
  have hsplit : ∃ parent rest,
      Split ("address.".toList ++ c) ".".toList = parent :: c :: rest := by
    refine ⟨"address".toList, [], ?_⟩
    rw [show ".".toList = ['.'] from rfl,
      show "address.".toList ++ c = "address".toList ++ '.' :: c by simp]
    exact Split_singleton_sep (by decide) hdotc
  have hrun := NestedJson.run_handleSQLQuery_select_nj json s (addressChildQuery c) N
    (by rw [hTrim]; exact hSel) [] ["address.".toList ++ c]
    (by rw [hTrim]; exact hconds) (by rw [hTrim]; exact hfields)
  rw [if_pos hN] at hrun
  have hkeys : passingKeys N [] (fun key => (NestedJson.checkConditions json key []).run s)
      = (List.range N).map fun (j : Nat) => userKey ((j : Int) + 1) := by
    unfold passingKeys
    exact List.filter_eq_self.mpr (fun _ _ => by rfl)
  rw [hkeys] at hrun
  obtain ⟨rows, hrows, hlen, hget⟩ := Outcome.sequence_map_ok
    (fun key => (NestedJson.projectLoop json key ["address.".toList ++ c] []).run s)
    ((List.range N).map fun (j : Nat) => userKey ((j : Int) + 1))
    (by
      intro key hkey
      obtain ⟨j, hj, rfl⟩ := List.mem_map.mp hkey
      have hj' := List.mem_range.mp hj
      obtain ⟨row, hrow, -⟩ := NestedJson.run_projectLoop_dotted json s
        (userKey ((j : Int) + 1)) ("address.".toList ++ c) c hdot hsplit (by
          have := hok (j + 1) (by omega) (by omega)
          simpa using this)
      exact ⟨row, hrow⟩)
  have hidx : ((List.range N).map fun (j : Nat) => userKey ((j : Int) + 1))[i - 1]?
      = some (userKey (i : Int)) := by
    rw [List.getElem?_map, List.getElem?_range (by omega)]
    simp only [Option.map_some']
    congr 2
    omega
  obtain ⟨row, hrow, hproj⟩ := hget (i - 1) _ hidx
  obtain ⟨row', hrow', hchildrow⟩ := NestedJson.run_projectLoop_dotted json s
    (userKey (i : Int)) ("address.".toList ++ c) c hdot hsplit (hok i hi.1 hi.2)
  have : row = row' := by
    have h1 := hproj.symm.trans hrow'
    simpa using h1
  subst this
  refine ⟨rows, row, hrun.trans hrows, ?_, hrow, hchildrow a w hlit haddr hchild⟩
  simpa using hlen

/-- Witness of C19: the child `city` on the record `user:1` of the three-user store. -/
theorem nested_address_child_resolved_witness :
    (TrimSpace ("address.".toList ++ "city".toList) = "address.".toList ++ "city".toList ∧
      Contains ("city".toList ++ " FROM".toList) " FROM ".toList = false ∧
      '.' ∉ "city".toList ∧ ',' ∉ "city".toList ∧
      NestedJson.whereConditions (addressChildQuery "city".toList) = .ok [] ∧
      3 ≤ maxSliceLen ∧ (1 ≤ 1 ∧ 1 ≤ 3) ∧
      (∀ j : Nat, 1 ≤ j → j ≤ 3 → ∀ e,
        demoStore.hget (userKey (j : Int)) ("address.".toList ++ "city".toList) ≠ .err e) ∧
      demoStore.hget (userKey ((1 : Nat) : Int)) ("address.".toList ++ "city".toList) = .nil ∧
      demoStore.hget (userKey ((1 : Nat) : Int)) "address".toList
        = .val "\x7b\"city\":\"Paris\"\x7d".toList ∧
      (Json.jsonStringMap "\x7b\"city\":\"Paris\"\x7d".toList).get? "city".toList
        = some "Paris".toList) ∧
    ∃ rows row,
      (NestedJson.handleSQLQuery Json.jsonStringMap (addressChildQuery "city".toList)
        ((3 : Nat) : Int)).run demoStore = .ok rows ∧
      rows.length = 3 ∧ rows[1 - 1]? = some row ∧
      row.get? ("address.".toList ++ "city".toList) = some "Paris".toList :=
  ⟨⟨by decide, by decide, by decide, by decide, by decide, by decide, by decide,
      fun _ _ _ e => demoStore_no_error _ _ e, by decide, by decide, by decide⟩,
    nested_address_child_resolved Json.jsonStringMap demoStore 3 1 "city".toList
      "\x7b\"city\":\"Paris\"\x7d".toList "Paris".toList (by decide) (by decide) (by decide)
      (by decide) (by decide) (by decide) (by decide)
      (fun _ _ _ e => demoStore_no_error _ _ e) (by decide) (by decide) (by decide)⟩

/-- C19 as stated fails. Both records have no literal field `profile.city` and a `profile`
field that decodes to `city: Rome`.  For `SELECT profile.city FROM t` the fallback reads the
field `address`, not `profile`: the row of `user:1` holds `Paris`, the city of its `address`,
and the row of `user:2`, which has no `address`, holds the empty string. -/
theorem nested_parent_counterexample :
    profileStore.hget (userKey 1) "profile.city".toList = .nil ∧
    profileStore.hget (userKey 2) "profile.city".toList = .nil ∧
    profileStore.hget (userKey 1) "profile".toList = .val "\x7b\"city\":\"Rome\"\x7d".toList ∧
    profileStore.hget (userKey 2) "profile".toList = .val "\x7b\"city\":\"Rome\"\x7d".toList ∧
    (Json.jsonStringMap "\x7b\"city\":\"Rome\"\x7d".toList).get? "city".toList
      = some "Rome".toList ∧
    (NestedJson.handleSQLQuery Json.jsonStringMap "SELECT profile.city FROM t".toList 2).run
      profileStore =
      .ok [[("profile.city".toList, "Paris".toList)], [("profile.city".toList, [])]] := by
  decide

end DbParser

namespace DbParser
open Go

theorem keyQuery_parts {K : Str} (hq : quote ∉ K) :
    TrimSpace (keyQuery K) = keyQuery K ∧
    HasPrefix (ToUpper (keyQuery K)) "SELECT".toList = true ∧
    Index (keyQuery K) "key='".toList = 30 ∧
    (keyQuery K).drop 35 = K ++ [quote] ∧
    Index (K ++ [quote]) [quote] = (K.length : Int) := by
  refine ⟨?_, ?_, ?_, ?_, ?_⟩
  · apply trim_of_ends
    · intro a ha
      simp only [keyQuery, String.toList, List.cons_append, List.append_assoc,
        List.head?_cons, Option.mem_def, Option.some.injEq] at ha
      subst ha
      decide
    · intro b hb
      unfold keyQuery at hb
      rw [List.getLast?_append_of_ne_nil _ (by decide)] at hb
      have h2 : ("'".toList).getLast? = some quote := by decide
      rw [h2] at hb
      have : b = quote := by simpa using hb.symm
      subst this
      decide
  · simp [keyQuery, HasPrefix, ToUpper]
  · have h := Index_append_self (w := "key='".toList) "SELECT value FROM keydb WHERE ".toList
      (K ++ [quote]) (by decide)
    rw [show keyQuery K = "SELECT value FROM keydb WHERE ".toList
      ++ ("key='".toList ++ (K ++ [quote])) by simp [keyQuery, quote]]
    rw [h]
    rfl
  · rw [show keyQuery K = "SELECT value FROM keydb WHERE key='".toList ++ (K ++ [quote]) by
      simp [keyQuery, quote]]
    exact List.drop_left' (by decide)
  · have h := Index_append_self (w := [quote]) K [] (by
      rw [List.dropLast_single, List.append_nil, Contains_singleton]
      simpa using hq)
    simpa using h

/-- C21. For every non-empty key `K` without a single quote and every store, `handleSQLQuery`
of `main.go` applied to `SELECT value FROM keydb WHERE key='K'` issues `GET K` and nothing
else: it returns the string stored under `K` when the store has `K`, fails with the error
`key not found` when it has not, and passes on any other error of the store. -/
theorem key_lookup (K : Str) (hne : K ≠ []) (hq : quote ∉ K) (s : Store) :
    (Main.handleSQLQuery (keyQuery K)).run s =
      (match s.get K with
        | .val v => .ok v
        | .nil => .error "key not found".toList
        | .err e => .error e) ∧
    (Main.handleSQLQuery (keyQuery K)).reads s = 1 := by
  obtain ⟨hTrim, hSel, hidx, hdrop, hstop⟩ := keyQuery_parts hq
  have hlen : (keyQuery K).length = K.length + 36 := by
    simp [keyQuery]
  have hpos : 0 < K.length := List.length_pos.mpr hne
  have hrest : sliceFrom (keyQuery K) (30 + (("key='".toList.length : Nat) : Int))
      = some (K ++ [quote]) := by
    rw [show (30 : Int) + (("key='".toList.length : Nat) : Int) = ((35 : Nat) : Int) by rfl,
      sliceFrom_eq_some (by omega) (by rw [hlen]; omega), Int.toNat_ofNat, hdrop]
  have hkey : slice (keyQuery K) (30 + (("key='".toList.length : Nat) : Int))
      ((K.length : Int) + (30 + (("key='".toList.length : Nat) : Int))) = some K := by
    rw [show (30 : Int) + (("key='".toList.length : Nat) : Int) = ((35 : Nat) : Int) by rfl,
      slice_eq_some (by omega) (by omega) (by rw [hlen]; push_cast; omega), Int.toNat_ofNat,
      hdrop]
    congr 1
    have : ((K.length : Int) + ((35 : Nat) : Int)).toNat - 35 = K.length := by omega
    rw [this, List.take_left]
  have hguard : ¬ ((30 : Int) + (("key='".toList.length : Nat) : Int) = -1 ∨
      (K.length : Int) + (30 + (("key='".toList.length : Nat) : Int)) = -1 ∨
      (K.length : Int) + (30 + (("key='".toList.length : Nat) : Int))
        ≤ 30 + (("key='".toList.length : Nat) : Int)) := by
    rw [show (30 : Int) + (("key='".toList.length : Nat) : Int) = ((35 : Nat) : Int) by rfl]
    omega
  have hprog : Main.handleSQLQuery (keyQuery K) =
      Prog.get K fun r =>
        match r with
        | .val v => pure v
        | .nil => Prog.fail "key not found".toList
        | .err e => Prog.fail e := by
    simp only [Main.handleSQLQuery, hTrim, hSel, if_true, hidx, hrest, hstop, hguard, if_false,
      hkey]
  rw [hprog]
  constructor
  · rw [Prog.run_get]
    cases s.get K <;> rfl
  · simp only [Prog.reads]
    cases s.get K <;> rfl

/-- Witness of C21: the key `user:1001` on the store written by `main`, where it holds
`John Doe`, and on the store of the concrete scenario, which has no such key. -/
theorem key_lookup_witness :
    ("user:1001".toList ≠ [] ∧ quote ∉ "user:1001".toList) ∧
    ((Main.handleSQLQuery (keyQuery "user:1001".toList)).run mainStore =
      (match mainStore.get "user:1001".toList with
        | .val v => .ok v
        | .nil => .error "key not found".toList
        | .err e => .error e) ∧
    (Main.handleSQLQuery (keyQuery "user:1001".toList)).reads mainStore = 1) ∧
    (Main.handleSQLQuery "SELECT value FROM keydb WHERE key='user:1001'".toList).run mainStore
      = .ok "John Doe".toList ∧
    (Main.handleSQLQuery "SELECT value FROM keydb WHERE key='user:1001'".toList).run annStore
      = .error "key not found".toList :=
  ⟨⟨by decide, by decide⟩, key_lookup "user:1001".toList (by decide) (by decide) mainStore,
    by decide, by decide⟩

end DbParser

namespace DbParser
open Go

/-- C22 (evaluation at the failing input). The query `SELECT value FROM keydb WHERE id='7'`
begins with `SELECT` and holds no `key='`.  `strings.Index` returns `-1`, so `start` is
`-1 + 5 = 4` and the test `start == -1` is false; the first quote after offset 4 gives
`end = 33 > start`, the guard lets the query through, and the program issues
`GET "CT value FROM keydb WHERE id="`: one store lookup, answered with `key not found` on the
store written by `main`, and with the stored value on a store that has that key.  A query
with no quote after offset 4 is rejected with `invalid SQL query` without a lookup. -/
theorem missing_key_clause_still_reads :
    HasPrefix (ToUpper (TrimSpace "SELECT value FROM keydb WHERE id='7'".toList))
      "SELECT".toList = true ∧
    Contains (TrimSpace "SELECT value FROM keydb WHERE id='7'".toList) "key='".toList
      = false ∧
    (Main.handleSQLQuery "SELECT value FROM keydb WHERE id='7'".toList).run mainStore
      = .error "key not found".toList ∧
    (Main.handleSQLQuery "SELECT value FROM keydb WHERE id='7'".toList).reads mainStore = 1 ∧
    (Main.handleSQLQuery "SELECT value FROM keydb WHERE id='7'".toList).run
      (Store.ofData [] [("CT value FROM keydb WHERE id=".toList, "stray".toList)])
      = .ok "stray".toList ∧
    (Main.handleSQLQuery "SELECT value FROM keydb".toList).run mainStore
      = .error "invalid SQL query".toList ∧
    (Main.handleSQLQuery "SELECT value FROM keydb".toList).reads mainStore = 0 := by
  decide

end DbParser

namespace DbParser
open Go

theorem foldl_set_get? (value : Str → Option Str) (f : Str) :
    ∀ (fields : List Str) (acc : Row),
      (fields.foldl
          (fun row field =>
            match value field with
            | some v => row.set field v
            | none => row)
          acc).get? f =
        if f ∈ fields then
          match value f with
          | some v => some v
          | none => acc.get? f
        else acc.get? f
  | [], acc => by simp
  | g :: rest, acc => by
    rw [List.foldl_cons, foldl_set_get? value f rest]
    by_cases hg : f = g
    · subst hg
      simp only [List.mem_cons, true_or, if_true]
      cases hv : value f with
      | some v => simp [GoMap.get?_set_self]
      | none => simp
    · have hmem : f ∈ g :: rest ↔ f ∈ rest := by simp [hg]
      have hacc : GoMap.get?
          (match value g with
          | some v => GoMap.set acc g v
          | none => acc) f = acc.get? f := by
        cases value g with
        | some v => exact GoMap.get?_set_ne acc v hg
        | none => rfl
      simp only [hmem, hacc]

/-- The row of the resolved values maps each requested field that has a resolved value to
that value, and holds no other field. -/
theorem rowOfFields_get? (value : Str → Option Str) (fields : List Str) (f : Str) :
    (rowOfFields value fields).get? f = if f ∈ fields then value f else none := by
  unfold rowOfFields
  rw [foldl_set_get? value f fields []]
  split
  · cases value f <;> rfl
  · rfl

/-- The length `2^44` is accepted by `make`, the next one and `2^62` are rejected; with a
rejected key-space size the SELECT queries of `joins.go` and `nestedJson.go` panic before any
key is read. -/
theorem make_rejects_large_length :
    makeKeys (2 ^ 44 + 1) = .panic .makeSliceLen ∧
    makeKeys (2 ^ 62) = .panic .makeSliceLen ∧
    makeKeys (-1) = .panic .makeSliceLen ∧
    (Joins.handleSQLQuery "SELECT name FROM users".toList (2 ^ 62)).run demoStore
      = .panic .makeSliceLen ∧
    (Joins.handleSQLQuery "SELECT name FROM users".toList (2 ^ 62)).reads demoStore = 0 ∧
    (NestedJson.handleSQLQuery Json.jsonStringMap "SELECT name FROM users".toList
      (2 ^ 62)).run demoStore = .panic .makeSliceLen ∧
    (NestedJson.handleSQLQuery Json.jsonStringMap "SELECT name FROM users".toList
      (2 ^ 62)).reads demoStore = 0 := by
  decide

end DbParser

namespace DbParser
open Go

/-- Operands that the exclusions leave in: the value `JOINT` and the field `JOINT` hold `JOIN`
but put no ` JOIN ` in the query, and the child name `my city` holds a blank but leaves the
field name and the first ` FROM ` of the query as they are. -/
theorem narrow_exclusions_examples :
    (plainOperand "JOINT".toList = true ∧
      Contains (equalityQuery "name".toList "JOINT".toList) " JOIN ".toList = false) ∧
    Contains (greaterQuery "JOINT".toList 25) " JOIN ".toList = false ∧
    (TrimSpace ("address.".toList ++ "my city".toList) = "address.".toList ++ "my city".toList ∧
      Contains ("my city".toList ++ " FROM".toList) " FROM ".toList = false ∧
      NestedJson.whereConditions (addressChildQuery "my city".toList) = .ok []) := by
  decide

end DbParser
